import Mathlib

/-!
# Verification of the songshake background-job engine

Shallow embedding of the job lifecycle and per-track processing engine of
the songshake repository, together with proofs of its stated properties.

The embedding mirrors, definition by definition:
* `src/song_shake/features/jobs/models.py`   — status and type enums;
* `src/song_shake/features/jobs/storage.py`  — job CRUD and AI usage counters;
* `src/song_shake/features/jobs/routes.py`   — job creation / stream routes;
* `src/song_shake/features/jobs/logic.py`    — background workers and live state;
* `src/song_shake/features/songs/storage.py` — track catalog and history store;
* `src/song_shake/features/enrichment/enrichment.py` — the pipeline runner
  and the retry engine.

Python dicts holding records become Lean structures; TinyDB tables become
lists of records; fallible calls into external ports become functions
returning `Except`; the module-level mutex serialises every operation, so
storage operations are plain state-passing functions.
-/

namespace SongShake

/-! ## Job domain model (`jobs/models.py`) -/

/-- `JobStatus` enum from `jobs/models.py`. -/
inductive JobStatus where
  | pending
  | running
  | completed
  | error
  | cancelled
deriving DecidableEq, Repr

/-- `JobType` enum from `jobs/models.py`. -/
inductive JobType where
  | enrichment
  | retry
deriving DecidableEq, Repr

/-- `TERMINAL_STATUSES = {COMPLETED, ERROR, CANCELLED}`. -/
def JobStatus.isTerminal : JobStatus → Bool
  | .completed => true
  | .error => true
  | .cancelled => true
  | _ => false

/-- A non-terminal ("active") status is PENDING or RUNNING. -/
def JobStatus.isActive (s : JobStatus) : Bool :=
  s == .pending || s == .running

/-- AI usage counters `{input_tokens, output_tokens, cost}`.  Python ints
become `Int`; the float `cost` is embedded as an exact rational. -/
structure Usage where
  inputTokens : Int
  outputTokens : Int
  cost : ℚ
deriving DecidableEq, Repr

def Usage.zero : Usage := ⟨0, 0, 0⟩

/-- A single error entry `{track_title, track_video_id, message}` recorded
on a job while it runs. -/
structure JobError where
  trackTitle : String
  trackVideoId : String
  message : String
deriving DecidableEq, Repr

/-- One persisted job record (a row of the TinyDB `jobs` table).  The
ISO timestamps are carried as opaque strings supplied by the caller. -/
structure JobRec where
  id : String
  jobType : JobType
  playlistId : String
  playlistName : String
  owner : String
  status : JobStatus
  total : Nat
  current : Nat
  message : String
  errors : List JobError
  aiUsage : Usage
  createdAt : String
  updatedAt : String
deriving DecidableEq, Repr

/-- The jobs table: an insertion-ordered list of records. -/
abbrev JobsTable := List JobRec

/-! ## Job storage (`jobs/storage.py`) -/

/-- The query condition of `check_and_create_job` / `get_job_for_playlist`:
`(Job.playlist_id == pid) & (PENDING | RUNNING) & (Job.owner == owner)`. -/
def activeFor (pid owner : String) (j : JobRec) : Bool :=
  j.playlistId == pid && j.status.isActive && j.owner == owner

/-- The fresh record inserted by `create_job` / `check_and_create_job`:
status PENDING, zero counters, `"Initializing…"` message, empty errors,
zero usage. -/
def newJobRec (jobId : String) (jobType : JobType) (pid owner name now : String) :
    JobRec :=
  { id := jobId
    jobType := jobType
    playlistId := pid
    playlistName := name
    owner := owner
    status := .pending
    total := 0
    current := 0
    message := "Initializing…"
    errors := []
    aiUsage := Usage.zero
    createdAt := now
    updatedAt := now }

/-- `check_and_create_job` (`jobs/storage.py` lines 119–164): under the
module lock, search for an active job for `(pid, owner)`; if one exists
return `None` and leave the table untouched, otherwise insert a fresh
PENDING record and return it. -/
def check_and_create_job (db : JobsTable) (pid owner jobId : String)
    (jobType : JobType) (name now : String) : Option JobRec × JobsTable :=
  let existing := db.filter (activeFor pid owner)
  if existing.isEmpty then
    let record := newJobRec jobId jobType pid owner name now
    (some record, db ++ [record])
  else
    (none, db)

/-- `get_job`: first record with the given id. -/
def get_job (db : JobsTable) (jobId : String) : Option JobRec :=
  (db.filter (fun j => j.id == jobId)).head?

/-- `update_job`: partially update the fields of every record matching the
id (TinyDB `update` applies to all matches).  The updater mirrors the
`fields` dict; `updated_at` is always rewritten. -/
def update_job (db : JobsTable) (jobId : String) (f : JobRec → JobRec)
    (now : String) : JobsTable :=
  db.map (fun j => if j.id == jobId then { f j with updatedAt := now } else j)

/-- The admission invariant of the spec: for every `(playlistId, owner)`
pair, at most one record of the table is in a non-terminal status. -/
def AdmissionInv (db : JobsTable) : Prop :=
  ∀ pid owner : String, (db.filter (activeFor pid owner)).length ≤ 1

/-! ## Job creation route (`jobs/routes.py` `create_job`) -/

/-- Outcome of `POST /jobs`. -/
inductive CreateJobOutcome where
  | badRequest                 -- 400, no API key
  | conflict                   -- 409, duplicate active job
  | created (job : JobRec)     -- 201/200 with the new record
deriving DecidableEq, Repr

/-- `create_job` route (`jobs/routes.py` lines 40–102), admission-control
part: resolve the API key, then delegate to the atomic
`check_and_create_job`; `None` becomes a 409 Conflict.  The route returns
the table as well so that "no state mutated on failure" is expressible. -/
def route_create_job (db : JobsTable) (apiKey : Option String)
    (pid owner jobId name now : String) : CreateJobOutcome × JobsTable :=
  match apiKey with
  | none => (.badRequest, db)
  | some _ =>
    match check_and_create_job db pid owner jobId .enrichment name now with
    | (none, db') => (.conflict, db')
    | (some job, db') => (.created job, db')

/-! ## In-memory maps

Python dicts keyed by strings (`_job_live_state`, `_ai_usage_live`, the
TinyDB `ai_usage` table) become association lists; `d[k] = v` replaces the
entry when the key is present and appends it otherwise. -/

/-- `d.get(k)`. -/
def getAssoc {α : Type} (m : List (String × α)) (k : String) : Option α :=
  ((m.filter (fun e => e.1 == k)).head?).map (·.2)

/-- `d[k] = v`. -/
def setAssoc {α : Type} (m : List (String × α)) (k : String) (v : α) :
    List (String × α) :=
  if m.any (fun e => e.1 == k) then
    m.map (fun e => if e.1 == k then (k, v) else e)
  else
    m ++ [(k, v)]

/-! ## All-time AI usage storage (`jobs/storage.py` lines 184–232) -/

/-- The `ai_usage` table: one record per owner. -/
abbrev UsageTable := List (String × Usage)

/-- Increment the counters of a usage record. -/
def Usage.add (u : Usage) (dIn dOut : Int) (dCost : ℚ) : Usage :=
  ⟨u.inputTokens + dIn, u.outputTokens + dOut, u.cost + dCost⟩

/-- First `ai_usage` record for an owner, if any (`table.search(...)[0]`). -/
def find_usage (tbl : UsageTable) (owner : String) : Option Usage :=
  getAssoc tbl owner

/-- `update_ai_usage` (`jobs/storage.py` lines 196–232): under the module
lock, read the owner's record, add the deltas and write it back; when the
owner has no record yet, insert the deltas as the initial counters.
Returns the updated record together with the new table. -/
def update_ai_usage (tbl : UsageTable) (owner : String)
    (dIn dOut : Int) (dCost : ℚ) : Usage × UsageTable :=
  match find_usage tbl owner with
  | some current =>
    let updated := current.add dIn dOut dCost
    (updated, setAssoc tbl owner updated)
  | none =>
    let record : Usage := ⟨dIn, dOut, dCost⟩
    (record, tbl ++ [(owner, record)])

/-- The owner's persisted counters, zero when the record is missing. -/
def ownerPersisted (tbl : UsageTable) (owner : String) : Usage :=
  (find_usage tbl owner).getD Usage.zero

/-! ## AI usage accountant (`jobs/logic.py` `_on_progress`, lines 142–183)

Each worker keeps, per job, the previous tick's cumulative counters so it
can turn the cumulative reports of the enrichment runner into deltas. -/

/-- The worker-local accounting state of one job: the cumulative snapshot
stored on the job record (`job_ai_usage`) and the previous tick's values
(`prev_tokens` / `prev_cost`). -/
structure TickState where
  jobAiUsage : Usage
  prevTokens : Int
  prevCost : ℚ
deriving DecidableEq, Repr

/-- Initial accounting state of a job (`prev_tokens = 0`, `prev_cost = 0.0`,
`job_ai_usage` zeroed). -/
def TickState.init : TickState := ⟨Usage.zero, 0, 0⟩

/-- The usage part of one `_on_progress` tick (`jobs/logic.py` lines
142–183): record the cumulative snapshot, compute
`delta = current − previous`, add the delta into the owner's live usage
map, and — only when the delta is positive — issue the atomic
`update_ai_usage` increment and reconcile the live map with its result.
The final component reports whether a persisted increment was issued. -/
def usageTick (owner : String) (tokens : Int) (cost : ℚ) (ts : TickState)
    (live : List (String × Usage)) (tbl : UsageTable) :
    TickState × List (String × Usage) × UsageTable × Bool :=
  let jobAiUsage : Usage := ⟨tokens, 0, cost⟩
  let deltaTokens := tokens - ts.prevTokens
  let deltaCost := cost - ts.prevCost
  let currentLive := (getAssoc live owner).getD Usage.zero
  let live1 := setAssoc live owner
    ⟨currentLive.inputTokens + deltaTokens, currentLive.outputTokens,
      currentLive.cost + deltaCost⟩
  if deltaTokens > 0 ∨ deltaCost > 0 then
    let (updated, tbl') := update_ai_usage tbl owner deltaTokens 0 deltaCost
    (⟨jobAiUsage, tokens, cost⟩, setAssoc live1 owner updated, tbl', true)
  else
    (⟨jobAiUsage, tokens, cost⟩, live1, tbl, false)

/-- One cumulative usage report of one job (a progress tick as seen by the
accountant). -/
structure JobTick where
  job : String
  tokens : Int
  cost : ℚ
deriving DecidableEq, Repr

/-- The joint state of every concurrently running job's accountant for one
owner: per-job tick state, the owner-level live usage map, and the
persisted `ai_usage` table. -/
structure AccState where
  prev : String → TickState
  live : List (String × Usage)
  store : UsageTable

/-- Deliver one tick to the accountant of the job that produced it.  The
per-job states are independent; the live map and the store are shared. -/
def accStep (owner : String) (s : AccState) (e : JobTick) : AccState :=
  let r := usageTick owner e.tokens e.cost (s.prev e.job) s.live s.store
  { prev := fun j => if j == e.job then r.1 else s.prev j
    live := r.2.1
    store := r.2.2.1 }

/-- Run an interleaved sequence of ticks from several jobs. -/
def accRun (owner : String) (s : AccState) (es : List JobTick) : AccState :=
  es.foldl (accStep owner) s

/-- The fresh accountant state for an owner: every job starts at
`prev = 0`, and the persisted table is whatever the store holds. -/
def AccState.init (tbl : UsageTable) : AccState :=
  ⟨fun _ => TickState.init, [], tbl⟩

/-- Each tick's cumulative counters are at least the previous tick's of the
same job — true of the runner, whose `TokenTracker` only ever adds. -/
def ticksMonotone (owner : String) (s : AccState) : List JobTick → Bool
  | [] => true
  | e :: es =>
    decide ((s.prev e.job).prevTokens ≤ e.tokens) &&
    decide ((s.prev e.job).prevCost ≤ e.cost) &&
    ticksMonotone owner (accStep owner s e) es

/-- The last cumulative report of one job inside an interleaving, as a
(tokens, cost) pair; `(0, 0)` when the job never reported. -/
def lastCum (es : List JobTick) (j : String) : Int × ℚ :=
  es.foldl (fun acc e => if e.job == j then (e.tokens, e.cost) else acc) (0, 0)

/-- Project the owner's persisted (tokens, cost) out of an accountant
state. -/
def persistedPair (owner : String) (s : AccState) : Int × ℚ :=
  ((ownerPersisted s.store owner).inputTokens, (ownerPersisted s.store owner).cost)

/-- Project one job's previous-tick (tokens, cost). -/
def prevPair (s : AccState) (j : String) : Int × ℚ :=
  ((s.prev j).prevTokens, (s.prev j).prevCost)

/-! ## Python truthiness helpers

Several source sites branch on Python truthiness (`if x:`, `a or b`);
for strings and lists the falsy values are `None`, `""` and `[]`. -/

/-- Truthiness of an optional string (`None` and `""` are falsy). -/
def truthyStr (o : Option String) : Bool :=
  match o with
  | some s => s != ""
  | none => false

/-- Python `a or b` on optional strings. -/
def orStr (a b : Option String) : Option String :=
  if truthyStr a then a else b

/-- Python `a or b` on lists (an empty list is falsy). -/
def orList {α : Type} (a b : List α) : List α :=
  if a.isEmpty then b else a

/-- Collapse a missing-or-empty video id to `none` (`if not video_id:`). -/
def truthyVid (o : Option String) : Option String :=
  match o with
  | some v => if v == "" then none else some v
  | none => none

/-- Python's `str.removesuffix`. -/
def removeSuffixStr (s sfx : String) : String :=
  if sfx ≠ "" ∧ s.endsWith sfx then s.dropRight sfx.length else s

/-- Python's `str.strip()`: drop leading and trailing whitespace. -/
def pyStrip (s : String) : String :=
  String.mk
    (((s.data.dropWhile Char.isWhitespace).reverse.dropWhile
      Char.isWhitespace).reverse)

/-- Python's `str.lower()`. -/
def pyLower (s : String) : String :=
  String.mk (s.data.map Char.toLower)

/-! ## Catalog data model (`enrichment.py`, `songs/storage.py`) -/

/-- A track artist `{"name": ..., "id": ...}`. -/
structure Artist where
  name : String
  id : Option String
deriving DecidableEq, Repr

/-- A track album `{"name": ..., "id": ...}`. -/
structure Album where
  name : String
  id : Option String
deriving DecidableEq, Repr

/-- One raw playlist entry as returned by the Catalog Port's `get_tracks`. -/
structure Track where
  videoId : Option String
  title : Option String
  artists : List Artist
  album : Option Album
  thumbnails : List String
deriving DecidableEq, Repr

/-- Per-song metadata as returned by the Catalog Port's `get_song`. -/
structure SongInfo where
  title : Option String
  isMusic : Bool
  playable : Bool
  artists : List Artist
  album : Option Album
  year : Option String
  playCount : Option String
  thumbnails : List String
deriving DecidableEq, Repr

/-- Album metadata as returned by `get_album`. -/
structure AlbumMeta where
  year : Option String
deriving DecidableEq, Repr

/-- Token usage reported by the Enrichment Port
(`{"prompt_tokens": ..., "candidates_tokens": ...}`). -/
structure UsageMeta where
  promptTokens : Int
  candidatesTokens : Int
deriving DecidableEq, Repr

/-- The Enrichment Port's per-track result dict.  A reported failure is
carried in `error` (failures cross this boundary as data). -/
structure Metadata where
  genres : List String
  moods : List String
  instruments : List String
  bpm : Option Int
  error : Option String
  usageMeta : Option UsageMeta
deriving DecidableEq, Repr

/-- The metadata dict used for non-music and exception paths. -/
def emptyMetadata (err : Option String) : Metadata :=
  ⟨[], [], [], none, err, none⟩

/-- One enriched catalog record (`track_data` as assembled by
`_build_track_data` and stored in the `songs` table).  The `owner` key is
`none` once `save_track` has popped it. -/
structure TrackData where
  videoId : String
  title : String
  artists : List Artist
  album : Option Album
  year : Option String
  playCount : Option String
  thumbnails : List String
  genres : List String
  moods : List String
  instruments : List String
  bpm : Option Int
  isMusic : Bool
  status : String
  success : Bool
  errorMessage : Option String
  url : String
  playableVideoId : Option String
  owner : Option String
deriving DecidableEq, Repr

/-- `", ".join(a["name"] for a in artists)`. -/
def artistsJoin (arts : List Artist) : String :=
  String.intercalate ", " (arts.map (·.name))

/-- `_build_track_data` (`enrichment.py` lines 182–251): assemble a
`track_data` record from raw track info and enrichment metadata.  Pure
function, translated clause by clause. -/
def _build_track_data (videoId title : String) (track : Track)
    (owner : String) (metadata : Metadata) (isMusic : Bool)
    (albumYear : Option String) (playCount : Option String)
    (playableVideoId : Option String) : TrackData :=
  let isError := truthyStr metadata.error
  let artists := track.artists.map
    (fun a => ⟨pyStrip (removeSuffixStr a.name " - Topic"), a.id⟩)
  let album : Option Album :=
    match track.album with
    | some a => if a.name ≠ "" then some ⟨a.name, a.id⟩ else none
    | none => none
  let status := if ¬isMusic then "non-music"
    else if isError then "error" else "success"
  let urlVid := playableVideoId.getD videoId
  { videoId := videoId
    title := title
    artists := artists
    album := album
    year := albumYear
    playCount := playCount
    thumbnails := track.thumbnails
    genres := metadata.genres
    moods := metadata.moods
    instruments := metadata.instruments
    bpm := metadata.bpm
    isMusic := isMusic
    status := status
    success := isMusic && !isError
    errorMessage := metadata.error
    url := "https://music.youtube.com/watch?v=" ++ urlVid
    playableVideoId := playableVideoId
    owner := some owner }

/-! ## Songs storage (`songs/storage.py`) -/

/-- One record of the append-structured `history` table. -/
structure HistoryRec where
  playlistId : String
  owner : String
  lastProcessed : String
  itemCount : Nat
  status : String
  error : Option String
deriving DecidableEq, Repr

/-- The metadata dict passed to `save_enrichment_history`. -/
structure HistoryMeta where
  timestamp : String
  itemCount : Nat
  status : String
  error : Option String
deriving DecidableEq, Repr

/-- The TinyDB database of the songs feature: the global `songs` catalog,
the `user_songs` many-to-many ownership links `(owner, videoId)`, and the
`history` table. -/
structure SongsDB where
  songs : List TrackData
  userSongs : List (String × String)
  history : List HistoryRec
deriving DecidableEq, Repr

/-- TinyDB `upsert` keyed by `Song.videoId`: update every matching
document, or insert when none matches.  An update only touches the keys
present in the new document — of which only `playableVideoId` can be
absent — so a missing `playableVideoId` preserves the stored one. -/
def upsertSong (songs : List TrackData) (data : TrackData) (vid : String) :
    List TrackData :=
  if songs.any (fun s => s.videoId == vid) then
    songs.map (fun s =>
      if s.videoId == vid then
        { data with playableVideoId :=
            match data.playableVideoId with
            | some p => some p
            | none => s.playableVideoId }
      else s)
  else
    songs ++ [data]

/-- `save_track` (`songs/storage.py` lines 44–68): pop the owner key to
keep the catalog generic, upsert the record by video id, and link the
owner to the video id unless the link already exists.  Without a video id
the record is inserted as an orphan row. -/
def save_track (db : SongsDB) (td : TrackData) : SongsDB :=
  let owner := td.owner.getD "local"
  let data := { td with owner := none }
  match truthyVid (some td.videoId) with
  | some vid =>
    let songs' := upsertSong db.songs data vid
    let userSongs' :=
      if db.userSongs.any (fun l => l.1 == owner && l.2 == vid) then
        db.userSongs
      else
        db.userSongs ++ [(owner, vid)]
    { db with songs := songs', userSongs := userSongs' }
  | none =>
    { db with songs := db.songs ++ [data] }

/-- `get_track_by_id`: first catalog record with the given video id. -/
def get_track_by_id (db : SongsDB) (vid : String) : Option TrackData :=
  (db.songs.filter (fun s => s.videoId == vid)).head?

/-- `get_failed_tracks` (`songs/storage.py` lines 134–153): the
error-status catalog records among the video ids linked to the owner. -/
def get_failed_tracks (db : SongsDB) (owner : String) : List TrackData :=
  let videoIds := ((db.userSongs.filter (fun l => l.1 == owner)).map (·.2)).filter
    (fun v => v != "")
  if videoIds.isEmpty then []
  else
    (db.songs.filter (fun s => s.status == "error")).filter
      (fun s => videoIds.contains s.videoId)

/-- `save_enrichment_history` (`songs/storage.py` lines 70–90): build the
history record and **upsert** it keyed by
`(History.playlistId, History.owner)`.  The record always carries the
`playlistId`, `owner`, `last_processed`, `item_count` and `status` keys,
but the `error` key only when the metadata dict has one
(`meta.error = none` models the absent key).  TinyDB's `upsert` *merges*
the provided keys into a matching document, so on an update the
always-present keys overwrite the pair's previous record while an absent
`error` key leaves the previously stored error value in place. -/
def historyUpsert (h : List HistoryRec) (pid owner : String)
    (meta : HistoryMeta) : List HistoryRec :=
  let keyMatch := fun (x : HistoryRec) => x.playlistId == pid && x.owner == owner
  if h.any keyMatch then
    h.map (fun x => if keyMatch x then
      ⟨pid, owner, meta.timestamp, meta.itemCount, meta.status,
        match meta.error with
        | some e => some e
        | none => x.error⟩
      else x)
  else
    h ++ [⟨pid, owner, meta.timestamp, meta.itemCount, meta.status, meta.error⟩]

/-- `save_enrichment_history` applies the key-merging upsert to the
`history` table. -/
def save_enrichment_history (db : SongsDB) (pid owner : String)
    (meta : HistoryMeta) : SongsDB :=
  { db with history := historyUpsert db.history pid owner meta }

/-! ## External ports (`platform/protocols.py`)

The DI ports of `process_playlist` / `retry_failed_tracks` become pure
functions; a call that can raise returns `Except String` (the exception
message). -/

structure Ports where
  get_tracks : String → List Track
  get_song : String → Except String SongInfo
  search_playable_alternative : String → String → Option String
  get_album : String → Except String AlbumMeta
  download : String → Except String String
  enrich : String → String → String → Except String Metadata

/-! ## Token tracker (`enrichment.py` `TokenTracker`) -/

/-- Gemini pricing constants (`PRICE_INPUT_AUDIO_PER_1M`,
`PRICE_OUTPUT_PER_1M`). -/
def PRICE_INPUT_AUDIO_PER_1M : ℚ := 1
def PRICE_OUTPUT_PER_1M : ℚ := 3

/-- `TokenTracker`: cumulative token counters and success/failure tallies
of one run. -/
structure Tracker where
  inputTokens : Int
  outputTokens : Int
  successful : Nat
  failed : Nat
deriving DecidableEq, Repr

def Tracker.init : Tracker := ⟨0, 0, 0, 0⟩

/-- `add_usage_from_dict`: add the enricher-reported counters; a falsy
(absent) dict is ignored. -/
def Tracker.addUsageFromDict (tr : Tracker) (u : Option UsageMeta) : Tracker :=
  match u with
  | none => tr
  | some um =>
    { tr with inputTokens := tr.inputTokens + um.promptTokens
              outputTokens := tr.outputTokens + um.candidatesTokens }

/-- `get_cost`: tokens priced per million. -/
def Tracker.getCost (tr : Tracker) : ℚ :=
  (tr.inputTokens : ℚ) / 1000000 * PRICE_INPUT_AUDIO_PER_1M +
    (tr.outputTokens : ℚ) / 1000000 * PRICE_OUTPUT_PER_1M

/-! ## The enrichment pipeline runner (`enrichment.py` `process_playlist`) -/

/-- One `on_progress` callback invocation (`_report`,
`enrichment.py` lines 348–358). -/
structure Progress where
  current : Nat
  total : Nat
  message : String
  tokens : Int
  cost : ℚ
  trackData : Option TrackData
deriving DecidableEq, Repr

/-- The runner's mutable state: the songs database, the accumulated
results, the token tracker, the trace of emitted progress callbacks, the
album-metadata cache, and instrumentation counters for the port calls and
processed tracks. -/
structure RunState where
  db : SongsDB
  results : List TrackData
  tracker : Tracker
  reports : List Progress
  albumCache : List (String × AlbumMeta)
  getSongCalls : Nat
  enrichCalls : Nat
  downloadCalls : Nat
  processedTracks : Nat
  searchCalls : List (String × String)
deriving DecidableEq, Repr

def RunState.init (db : SongsDB) : RunState :=
  ⟨db, [], Tracker.init, [], [], 0, 0, 0, 0, []⟩

/-- `_report`: emit one progress callback carrying the current counters of
the tracker. -/
def report (st : RunState) (current total : Nat) (message : String)
    (td : Option TrackData) : RunState :=
  { st with reports := st.reports ++
      [⟨current, total, message,
        st.tracker.inputTokens + st.tracker.outputTokens,
        st.tracker.getCost, td⟩] }

/-- `_fetch_album_year`: album year via the per-run cache, calling
`get_album` on a miss. -/
def fetchAlbumYear (P : Ports) (st : RunState) (albumBrowseId : Option String) :
    Except String (Option String × RunState) :=
  match truthyVid albumBrowseId with
  | none => .ok (none, st)
  | some bid =>
    match getAssoc st.albumCache bid with
    | some meta => .ok (meta.year, st)
    | none =>
      match P.get_album bid with
      | .error e => .error e
      | .ok meta =>
        .ok (meta.year, { st with albumCache := setAssoc st.albumCache bid meta })

/-- The album browse id used for the year fallback:
`track.get("album", {}).get("id") if track.get("album") else None`. -/
def albumBrowseIdOf (t : Track) : Option String :=
  match t.album with
  | some a => a.id
  | none => none

/-- The artists/album/thumbnails of the playlist entry, overridden by the
richer per-song metadata where that is truthy (`enrichment.py` lines
418–430). -/
def track1Of (t : Track) (si : SongInfo) : Track :=
  { t with
    artists := orList si.artists t.artists
    album := if si.album.isSome then si.album else t.album
    thumbnails := orList si.thumbnails t.thumbnails }

/-- The artist display string after the per-song override. -/
def artistsDisplayOf (t : Track) (si : SongInfo) : String :=
  if si.artists.isEmpty then artistsJoin t.artists
  else artistsJoin si.artists

/-- The year resolution (`enrichment.py` lines 433–441): prefer the truthy
per-song year, fall back to the (cached) album fetch — which can raise. -/
def yearStepOf (P : Ports) (si : SongInfo) (track1 : Track) (st : RunState) :
    Except String (Option String × RunState) :=
  if truthyStr si.year then .ok (si.year, st)
  else fetchAlbumYear P st (albumBrowseIdOf track1)

/-- The `try:` download-and-enrich phase of `process_playlist`
(`enrichment.py` lines 464–512).  An exception from the downloader or the
enricher is absorbed: it becomes a saved ERROR `track_data` and an error
report, and processing continues.  Exceptions never escape this phase. -/
def enrichPhase (P : Ports) (owner : String) (total i : Nat)
    (vid title : String) (track1 : Track) (artistsDisplay : String)
    (albumYear playCount : Option String) (st : RunState) : RunState :=
  let attempt : Except String (RunState × TrackData) :=
    match P.download vid with
    | .error e => .error e
    | .ok filename =>
      match P.enrich filename title artistsDisplay with
      | .error e => .error e
      | .ok metadata0 =>
        let usageMeta := metadata0.usageMeta
        let metadata := { metadata0 with usageMeta := none }
        let tracker := st.tracker.addUsageFromDict usageMeta
        let isError := truthyStr metadata.error
        let tracker :=
          if isError then { tracker with failed := tracker.failed + 1 }
          else { tracker with successful := tracker.successful + 1 }
        let trackData := _build_track_data vid title track1 owner
          metadata true albumYear playCount none
        .ok ({ st with tracker := tracker }, trackData)
  let st := { st with downloadCalls := st.downloadCalls + 1
                      enrichCalls := st.enrichCalls +
                        (match P.download vid with
                         | .ok _ => 1
                         | .error _ => 0) }
  match attempt with
  | .ok (st1, trackData) =>
    let st2 := { st1 with
      downloadCalls := st.downloadCalls
      enrichCalls := st.enrichCalls
      db := save_track st1.db trackData
      results := st1.results ++ [trackData] }
    report st2 i total ("Processed: " ++ title) (some trackData)
  | .error e =>
    -- `except Exception as e:` — record an error track and continue
    let tracker := { st.tracker with failed := st.tracker.failed + 1 }
    let errTrackData := _build_track_data vid title track1 owner
      (emptyMetadata (some e)) true albumYear playCount none
    let st2 := { st with
      tracker := tracker
      db := save_track st.db errTrackData
      results := st.results ++ [errTrackData] }
    report st2 i total ("Error: " ++ title) (some errTrackData)

/-- The part of the per-track body that runs after `get_song` succeeded
(`enrichment.py` lines 416–512): metadata overrides, year resolution
(which can raise), the non-music short-circuit, and the enrich phase. -/
def processTrackFetched (P : Ports) (owner : String) (total i : Nat)
    (t : Track) (vid : String) (si : SongInfo) (st : RunState) :
    RunState × Option String :=
  let title := t.title.getD "Unknown"
  let track1 := track1Of t si
  let artistsDisplay := artistsDisplayOf t si
  let playCount := si.playCount
  match yearStepOf P si track1 st with
  | .error e => (st, some e)
  | .ok (albumYear, st) =>
    if ¬si.isMusic then
      let trackData := _build_track_data vid title track1 owner
        (emptyMetadata none) false albumYear playCount none
      let st := { st with db := save_track st.db trackData
                          results := st.results ++ [trackData] }
      (report st i total ("Non-music: " ++ title) (some trackData), none)
    else
      (enrichPhase P owner total i vid title track1 artistsDisplay
        albumYear playCount st, none)

/-- The body of the per-track loop of `process_playlist`
(`enrichment.py` lines 389–514), for the track at position `i`.  Returns
the new state and, when an exception escapes (only possible from the
metadata-fetch calls that sit outside the per-track `try`), its message. -/
def processTrack (P : Ports) (owner : String) (wipe : Bool) (total i : Nat)
    (t : Track) (st0 : RunState) : RunState × Option String :=
  let st := { st0 with processedTracks := st0.processedTracks + 1 }
  match truthyVid t.videoId with
  | none => (st, none)
  | some vid =>
    let title := t.title.getD "Unknown"
    let artistsDisplay := artistsJoin t.artists
    let st := report st i total ("Processing: " ++ title ++ " - " ++ artistsDisplay) none
    -- Deduplication: unless wipe, an already-catalogued id is re-linked only
    match (if ¬wipe then get_track_by_id st.db vid else none) with
    | some existing =>
      let relinked := { existing with owner := some owner }
      ({ st with db := save_track st.db relinked }, none)
    | none =>
      match P.get_song vid with
      | .error e => ({ st with getSongCalls := st.getSongCalls + 1 }, some e)
      | .ok songInfo =>
        processTrackFetched P owner total i t vid songInfo
          { st with getSongCalls := st.getSongCalls + 1 }

/-- How a run of the loop ends abnormally: the distinguished cooperative
cancellation, or an escaped exception. -/
inductive RunErr where
  | cancelled
  | exc (msg : String)
deriving DecidableEq, Repr

/-- The per-track loop of `process_playlist`.  `obs i` tells whether the
`cancel_check` executed before track `i` observes the cancellation signal
as set; when it does, the check raises the distinguished cancellation. -/
def runLoop (P : Ports) (owner : String) (wipe : Bool) (total : Nat)
    (obs : Nat → Bool) : Nat → List Track → RunState → RunState × Option RunErr
  | _, [], st => (st, none)
  | i, t :: rest, st =>
    if obs i then (st, some .cancelled)
    else
      match processTrack P owner wipe total i t st with
      | (st', none) => runLoop P owner wipe total obs (i + 1) rest st'
      | (st', some e) => (st', some (.exc e))

/-- `process_playlist` (`enrichment.py` lines 254–559): fetch the track
list, report the initial tick, run the loop, and on both the success and
the escaped-exception paths write the enrichment history record (the
exception is then re-raised, which the model returns as `.error`).  The
early return on an empty playlist writes nothing. -/
def process_playlist (P : Ports) (pid owner : String) (wipe : Bool)
    (obs : Nat → Bool) (db : SongsDB) (timestamp : String) :
    RunState × Except RunErr (List TrackData) :=
  let st0 := RunState.init db
  let tracks := P.get_tracks pid
  if tracks.isEmpty then (st0, .ok [])
  else
    let total := tracks.length
    let st1 := report st0 0 total "Fetching tracks..." none
    match runLoop P owner wipe total obs 0 tracks st1 with
    | (st2, none) =>
      let st3 := report st2 total total "Enrichment complete" none
      let db' := save_enrichment_history st3.db pid owner
        ⟨timestamp, st3.results.length, "completed", none⟩
      ({ st3 with db := db' }, .ok st3.results)
    | (st2, some err) =>
      let msg := match err with
        | .cancelled => "Job cancelled by user"
        | .exc m => m
      let db' := save_enrichment_history st2.db pid owner
        ⟨timestamp, 0, "error", some msg⟩
      ({ st2 with db := db' }, .error err)

/-! ## Live state and the background worker (`jobs/logic.py`) -/

/-- One entry of `_job_live_state`: the latest snapshot of a job for fast
SSE reads. -/
structure LiveJob where
  id : String
  status : JobStatus
  total : Nat
  current : Nat
  message : String
  errors : List JobError
  aiUsage : Usage
deriving DecidableEq, Repr

/-- The three module-level in-memory maps of `jobs/logic.py`, all guarded
by `_live_state_lock`: cancellation events (the Bool is the event's
`is_set` flag), per-job live snapshots, and per-owner live AI usage. -/
structure LiveMaps where
  cancelEvents : List (String × Bool)
  jobLive : List (String × LiveJob)
  aiUsageLive : List (String × Usage)
deriving DecidableEq, Repr

/-- `dict.pop(k, None)`. -/
def eraseAssoc {α : Type} (m : List (String × α)) (k : String) :
    List (String × α) :=
  m.filter (fun e => e.1 != k)

/-- `get_live_state`: the live in-memory snapshot of a job. -/
def get_live_state (maps : LiveMaps) (jobId : String) : Option LiveJob :=
  getAssoc maps.jobLive jobId

/-- `get_cancel_event`: the cancellation event of a job, if tracked. -/
def get_cancel_event (maps : LiveMaps) (jobId : String) : Option Bool :=
  getAssoc maps.cancelEvents jobId

/-- `get_ai_usage` (`jobs/storage.py` lines 184–193): the owner's all-time
usage record, inserting a zero record when missing. -/
def get_ai_usage (tbl : UsageTable) (owner : String) : Usage × UsageTable :=
  match find_usage tbl owner with
  | some r => (r, tbl)
  | none => (Usage.zero, tbl ++ [(owner, Usage.zero)])

/-- The state a worker's `_on_progress` closure reads and writes: the
job's error list, its tick bookkeeping, the shared live maps, and the two
persisted tables. -/
structure WorkerState where
  jobErrors : List JobError
  tick : TickState
  maps : LiveMaps
  jobsDb : JobsTable
  usageTbl : UsageTable
deriving DecidableEq, Repr

/-- `_on_progress` (`jobs/logic.py` lines 122–194), one callback: append
an error entry when the tick carries a failed track, run the usage
accounting (`usageTick`), refresh the job's live snapshot, and persist
the job record on tick 0, the final tick, and every 5th tick. -/
def _on_progress (jobId owner now : String) (w : WorkerState)
    (p : Progress) : WorkerState :=
  let jobErrors :=
    match p.trackData with
    | some td =>
      if truthyStr td.errorMessage then
        w.jobErrors ++ [⟨td.title, td.videoId, td.errorMessage.getD ""⟩]
      else w.jobErrors
    | none => w.jobErrors
  let r := usageTick owner p.tokens p.cost w.tick w.maps.aiUsageLive w.usageTbl
  let jobLive' := setAssoc w.maps.jobLive jobId
    ⟨jobId, .running, p.total, p.current, p.message, jobErrors, r.1.jobAiUsage⟩
  let jobsDb' :=
    if p.current == 0 || p.current == p.total || p.current % 5 == 0 then
      update_job w.jobsDb jobId (fun j =>
        { j with status := .running, total := p.total, current := p.current,
                 message := p.message, errors := jobErrors,
                 aiUsage := r.1.jobAiUsage }) now
    else w.jobsDb
  ⟨jobErrors, r.1, ⟨w.maps.cancelEvents, jobLive', r.2.1⟩, jobsDb', r.2.2.1⟩

/-- The finalisation write to `_job_live_state`:
`{**_job_live_state.get(job_id, {}), "status": ..., "message": ...,
"errors": ..., "ai_usage": ...}`. -/
def mergeFinalLive (jobId : String) (prev : Option LiveJob)
    (status : JobStatus) (message : String) (errors : List JobError)
    (usage : Usage) : LiveJob :=
  match prev with
  | some lj => { lj with status := status, message := message,
                         errors := errors, aiUsage := usage }
  | none => ⟨jobId, status, 0, 0, message, errors, usage⟩

/-- `run_enrichment_job` (`jobs/logic.py` lines 62–252): register a
cancellation event, load the usage baseline, seed the live maps, mark the
job RUNNING, run `process_playlist` delivering every progress callback in
order, then finalise: COMPLETED on success, CANCELLED on the distinguished
cancellation, ERROR (with an extra top-level error entry) on any other
exception; update the live snapshot and the persisted record, and pop
**only** the cancellation event from the in-memory maps. -/
def run_enrichment_job (P : Ports) (jobId pid owner : String) (wipe : Bool)
    (obs : Nat → Bool) (maps0 : LiveMaps) (jobsDb0 : JobsTable)
    (usageTbl0 : UsageTable) (songsDb : SongsDB) (now timestamp : String) :
    WorkerState × RunState × JobStatus × String :=
  let maps1 := { maps0 with
    cancelEvents := setAssoc maps0.cancelEvents jobId false }
  let baselinePair := get_ai_usage usageTbl0 owner
  let initLive : LiveJob :=
    ⟨jobId, .running, 0, 0, "Initializing…", [], Usage.zero⟩
  let maps2 := { maps1 with jobLive := setAssoc maps1.jobLive jobId initLive }
  let maps3 :=
    if (getAssoc maps2.aiUsageLive owner).isSome then maps2
    else { maps2 with
      aiUsageLive := maps2.aiUsageLive ++ [(owner, baselinePair.1)] }
  let w0 : WorkerState :=
    ⟨[], TickState.init, maps3,
      update_job jobsDb0 jobId (fun j => { j with status := .running }) now,
      baselinePair.2⟩
  let pr := process_playlist P pid owner wipe obs songsDb timestamp
  let w1 := pr.1.reports.foldl (_on_progress jobId owner now) w0
  let outcome : JobStatus × String × List JobError :=
    match pr.2 with
    | .ok _ => (.completed, "Enrichment complete", w1.jobErrors)
    | .error .cancelled => (.cancelled, "Cancelled by user", w1.jobErrors)
    | .error (.exc m) => (.error, m, w1.jobErrors ++ [⟨"", "", m⟩])
  let merged : LiveJob := mergeFinalLive jobId (getAssoc w1.maps.jobLive jobId)
    outcome.1 outcome.2.1 outcome.2.2 w1.tick.jobAiUsage
  let maps4 := { w1.maps with jobLive := setAssoc w1.maps.jobLive jobId merged }
  let jobsDb2 := update_job w1.jobsDb jobId (fun j =>
    { j with status := outcome.1, message := outcome.2.1,
             errors := outcome.2.2, aiUsage := w1.tick.jobAiUsage }) now
  let maps5 := { maps4 with
    cancelEvents := eraseAssoc maps4.cancelEvents jobId }
  (⟨outcome.2.2, w1.tick, maps5, jobsDb2, w1.usageTbl⟩, pr.1, outcome.1,
    outcome.2.1)

/-- What one poll of the `GET /jobs/{id}/stream` generator
(`jobs/routes.py` lines 365–379) serves: the live snapshot when the cache
has one, otherwise the persisted record, otherwise nothing. -/
inductive StreamRead where
  | fromLive (lj : LiveJob)
  | fromStore (j : JobRec)
  | notFound
deriving DecidableEq, Repr

/-- One poll of the job progress stream. -/
def stream_read (maps : LiveMaps) (jobsDb : JobsTable) (jobId : String) :
    StreamRead :=
  match get_live_state maps jobId with
  | some s => .fromLive s
  | none =>
    match get_job jobsDb jobId with
    | some dbState => .fromStore dbState
    | none => .notFound

/-! ## The retry engine (`enrichment.py` `retry_failed_tracks`) -/

/-- The `try:` download-and-enrich phase shared by the retry candidates
(`enrichment.py` lines 819–865).  `downloadVideoId` is the id actually
fed to the downloader; the saved record keeps the original `vid` as its
key and `playableVideoId` separately.  The `except` path builds the error
record **without** a playable id.  Exceptions never escape this phase. -/
def retryEnrichPhase (P : Ports) (owner : String) (total i : Nat)
    (vid title : String) (track : Track) (artistsDisplay : String)
    (isMusic : Bool) (albumYear playCount : Option String)
    (downloadVideoId : String) (playableVideoId : Option String)
    (st : RunState) : RunState :=
  let attempt : Except String (RunState × TrackData) :=
    match P.download downloadVideoId with
    | .error e => .error e
    | .ok filename =>
      match P.enrich filename title artistsDisplay with
      | .error e => .error e
      | .ok metadata0 =>
        let usageMeta := metadata0.usageMeta
        let metadata := { metadata0 with usageMeta := none }
        let tracker := st.tracker.addUsageFromDict usageMeta
        let isError := truthyStr metadata.error
        let tracker :=
          if isError then { tracker with failed := tracker.failed + 1 }
          else { tracker with successful := tracker.successful + 1 }
        let trackData := _build_track_data vid title track owner
          metadata isMusic albumYear playCount playableVideoId
        .ok ({ st with tracker := tracker }, trackData)
  let st := { st with downloadCalls := st.downloadCalls + 1
                      enrichCalls := st.enrichCalls +
                        (match P.download downloadVideoId with
                         | .ok _ => 1
                         | .error _ => 0) }
  match attempt with
  | .ok (st1, trackData) =>
    let st2 := { st1 with
      downloadCalls := st.downloadCalls
      enrichCalls := st.enrichCalls
      db := save_track st1.db trackData
      results := st1.results ++ [trackData] }
    report st2 i total ("Retried: " ++ title) (some trackData)
  | .error e =>
    let tracker := { st.tracker with failed := st.tracker.failed + 1 }
    let errTrackData := _build_track_data vid title track owner
      (emptyMetadata (some e)) isMusic albumYear playCount none
    let st2 := { st with
      tracker := tracker
      db := save_track st.db errTrackData
      results := st.results ++ [errTrackData] }
    report st2 i total ("Error: " ++ title) (some errTrackData)

/-- One retry candidate (`enrichment.py` lines 679–867): re-fetch the
authoritative metadata, classify the failure (unplayable / replaced by a
different title), search for a playable alternative keyed by the stored
title, and either enrich via the alternate while keeping the original id
as the catalog key, or save an ERROR record with the descriptive reason
and continue.  An exception can escape only from the metadata fetches. -/
def retryTrack (P : Ports) (owner : String) (total i : Nat)
    (failed : TrackData) (st0 : RunState) : RunState × Option String :=
  let st := { st0 with processedTracks := st0.processedTracks + 1 }
  let vid := failed.videoId
  let title := failed.title
  let st := report st i total ("Retrying: " ++ title) none
  match P.get_song vid with
  | .error e => ({ st with getSongCalls := st.getSongCalls + 1 }, some e)
  | .ok si =>
    let st := { st with getSongCalls := st.getSongCalls + 1 }
    let isMusic := si.isMusic
    let fetchedTitle := si.title.getD ""
    let titleMatches :=
      pyLower (pyStrip fetchedTitle) == pyLower (pyStrip title)
    let videoReplaced := !titleMatches && fetchedTitle != ""
    let playable := if videoReplaced then false else si.playable
    let richArtists :=
      if videoReplaced then failed.artists
      else orList si.artists failed.artists
    let artistsDisplay := artistsJoin richArtists
    let track : Track :=
      { videoId := some vid
        title := some title
        artists := richArtists
        album :=
          if videoReplaced then failed.album
          else if si.album.isSome then si.album else failed.album
        thumbnails :=
          if videoReplaced then failed.thumbnails
          else orList si.thumbnails failed.thumbnails }
    let playCount :=
      if videoReplaced then failed.playCount
      else orStr si.playCount failed.playCount
    let year0 := if videoReplaced then none else si.year
    let yearStep : Except String (Option String × RunState) :=
      if truthyStr year0 then .ok (year0, st)
      else fetchAlbumYear P st (albumBrowseIdOf track)
    match yearStep with
    | .error e => (st, some e)
    | .ok (albumYear, st) =>
      if playable then
        (retryEnrichPhase P owner total i vid title track artistsDisplay
          isMusic albumYear playCount vid none st, none)
      else
        let st := { st with
          searchCalls := st.searchCalls ++ [(title, artistsDisplay)] }
        match P.search_playable_alternative title artistsDisplay with
        | some altVid =>
          match P.get_song altVid with
          | .error e => ({ st with getSongCalls := st.getSongCalls + 1 }, some e)
          | .ok altInfo =>
            let st := { st with getSongCalls := st.getSongCalls + 1 }
            let altArtists := orList altInfo.artists richArtists
            let altAlbum :=
              if altInfo.album.isSome then altInfo.album else track.album
            let altYear := orStr altInfo.year albumYear
            let altThumbnails := orList altInfo.thumbnails track.thumbnails
            let altPlayCount := orStr altInfo.playCount playCount
            let track := { track with
              artists := altArtists
              album := altAlbum
              thumbnails := altThumbnails }
            let artistsDisplay := artistsJoin altArtists
            let playCount := altPlayCount
            let albumYear := if truthyStr altYear then altYear else albumYear
            (retryEnrichPhase P owner total i vid title track artistsDisplay
              isMusic albumYear playCount altVid (some altVid) st, none)
        | none =>
          let reason :=
            if videoReplaced then "Video replaced and no alternative found"
            else "UNPLAYABLE and no alternative found"
          let tracker := { st.tracker with failed := st.tracker.failed + 1 }
          let errTrackData := _build_track_data vid title track owner
            (emptyMetadata (some reason)) isMusic albumYear playCount none
          let st2 := { st with
            tracker := tracker
            db := save_track st.db errTrackData
            results := st.results ++ [errTrackData] }
          (report st2 i total ("Failed: " ++ title) (some errTrackData), none)

/-- The per-candidate loop of `retry_failed_tracks`, with the same
cancellation check before each candidate as the primary runner. -/
def retryLoop (P : Ports) (owner : String) (total : Nat) (obs : Nat → Bool) :
    Nat → List TrackData → RunState → RunState × Option RunErr
  | _, [], st => (st, none)
  | i, t :: rest, st =>
    if obs i then (st, some .cancelled)
    else
      match retryTrack P owner total i t st with
      | (st', none) => retryLoop P owner total obs (i + 1) rest st'
      | (st', some e) => (st', some (.exc e))

/-- `retry_failed_tracks` (`enrichment.py` lines 562–879): collect the
owner's ERROR-status tracks, restrict them to the caller-supplied ids when
that list is non-empty, and run the retry loop.  No history record is
written. -/
def retry_failed_tracks (P : Ports) (owner : String) (obs : Nat → Bool)
    (videoIds : Option (List String)) (db : SongsDB) :
    RunState × Except RunErr (List TrackData) :=
  let allFailed := get_failed_tracks db owner
  let failedTracks :=
    match videoIds with
    | some ids =>
      if ids.isEmpty then allFailed
      else allFailed.filter (fun t => ids.contains t.videoId)
    | none => allFailed
  if failedTracks.isEmpty then (RunState.init db, .ok [])
  else
    let total := failedTracks.length
    let st1 := report (RunState.init db) 0 total
      ("Retrying " ++ toString total ++ " failed track(s)…") none
    match retryLoop P owner total obs 0 failedTracks st1 with
    | (st2, none) =>
      (report st2 total total "Retry complete" none, .ok st2.results)
    | (st2, some err) => (st2, .error err)

/-! ## The retry worker (`jobs/logic.py` `run_retry_job`)

`run_retry_job` passes `storage_port=get_songs_storage()` to
`retry_failed_tracks`, but the jobs logic module imports only
`get_jobs_storage` from the storage factory; the name is resolved in the
module globals when the call is evaluated. -/

/-- The names bound at module level in `song_shake/features/jobs/logic.py`
(its imports and definitions). -/
def logicModuleBindings : List String :=
  ["os", "threading", "datetime", "timezone", "enrichment", "JobStatus",
   "JobStoragePort", "get_jobs_storage", "get_logger", "logger",
   "PRICE_INPUT_AUDIO_PER_1M", "PRICE_OUTPUT_PER_1M", "_cancel_events",
   "_job_live_state", "_ai_usage_live", "_live_state_lock",
   "get_cancel_event", "get_live_state", "get_live_ai_usage",
   "CancelledError", "run_enrichment_job", "run_retry_job"]

/-- Python name resolution against the module globals: an unbound name
raises `NameError`. -/
def resolveGlobal (n : String) : Except String Unit :=
  if logicModuleBindings.contains n then .ok ()
  else .error ("name '" ++ n ++ "' is not defined")

/-- `run_retry_job` (`jobs/logic.py` lines 255–408): the retry worker with
the same lifecycle management as `run_enrichment_job`.  Inside the `try`
block it marks the job RUNNING and then evaluates the arguments of
`retry_failed_tracks` — which resolves the unbound name
`get_songs_storage` — so any `NameError` is caught by the generic handler
and the job finalizes with status ERROR.  Afterwards the job's final
cumulative usage is persisted when positive, and the cancellation event is
popped. -/
def run_retry_job (P : Ports) (jobId owner apiKey : String)
    (videoIds : Option (List String)) (obs : Nat → Bool) (maps0 : LiveMaps)
    (jobsDb0 : JobsTable) (usageTbl0 : UsageTable) (songsDb : SongsDB)
    (now : String) : WorkerState × JobStatus × String :=
  let maps1 := { maps0 with
    cancelEvents := setAssoc maps0.cancelEvents jobId false }
  let baselinePair := get_ai_usage usageTbl0 owner
  let initLive : LiveJob :=
    ⟨jobId, .running, 0, 0, "Initializing retry…", [], Usage.zero⟩
  let maps2 := { maps1 with jobLive := setAssoc maps1.jobLive jobId initLive }
  let maps3 :=
    if (getAssoc maps2.aiUsageLive owner).isSome then maps2
    else { maps2 with
      aiUsageLive := maps2.aiUsageLive ++ [(owner, baselinePair.1)] }
  let w0 : WorkerState :=
    ⟨[], TickState.init, maps3,
      update_job jobsDb0 jobId (fun j => { j with status := .running }) now,
      baselinePair.2⟩
  let attempt : Except String (RunState × Except RunErr (List TrackData)) :=
    match resolveGlobal "get_songs_storage" with
    | .error e => .error e
    | .ok _ => .ok (retry_failed_tracks P owner obs videoIds songsDb)
  let afterRun : WorkerState × JobStatus × String × List JobError :=
    match attempt with
    | .error e =>
      -- NameError → `except Exception` → terminal ERROR
      (w0, .error, e, w0.jobErrors ++ [⟨"", "", e⟩])
    | .ok pr =>
      let w1 := pr.1.reports.foldl (_on_progress jobId owner now) w0
      match pr.2 with
      | .ok _ => (w1, .completed, "Retry complete", w1.jobErrors)
      | .error .cancelled => (w1, .cancelled, "Cancelled by user", w1.jobErrors)
      | .error (.exc m) => (w1, .error, m, w1.jobErrors ++ [⟨"", "", m⟩])
  let w1 := afterRun.1
  let finalStatus := afterRun.2.1
  let finalMessage := afterRun.2.2.1
  let jobErrors := afterRun.2.2.2
  let merged : LiveJob := mergeFinalLive jobId (getAssoc w1.maps.jobLive jobId)
    finalStatus finalMessage jobErrors w1.tick.jobAiUsage
  let maps4 := { w1.maps with jobLive := setAssoc w1.maps.jobLive jobId merged }
  let jobsDb2 := update_job w1.jobsDb jobId (fun j =>
    { j with status := finalStatus, message := finalMessage,
             errors := jobErrors, aiUsage := w1.tick.jobAiUsage }) now
  -- final usage persist (skipped when the job accumulated nothing)
  let tokensIn := w1.tick.jobAiUsage.inputTokens
  let costTotal := w1.tick.jobAiUsage.cost
  let persistStep : List (String × Usage) × UsageTable :=
    if tokensIn > 0 ∨ costTotal > 0 then
      let upd := update_ai_usage w1.usageTbl owner tokensIn 0 costTotal
      (setAssoc maps4.aiUsageLive owner upd.1, upd.2)
    else (maps4.aiUsageLive, w1.usageTbl)
  let maps5 := { maps4 with
    aiUsageLive := persistStep.1
    cancelEvents := eraseAssoc maps4.cancelEvents jobId }
  (⟨jobErrors, w1.tick, maps5, jobsDb2, persistStep.2⟩, finalStatus,
    finalMessage)

/-- The error-entry part of one `_on_progress` tick: append a job error
entry when the tick carries a track with a truthy error message. -/
def errTickStep (acc : List JobError) (p : Progress) : List JobError :=
  match p.trackData with
  | some td =>
    if truthyStr td.errorMessage then
      acc ++ [⟨td.title, td.videoId, td.errorMessage.getD ""⟩]
    else acc
  | none => acc

/-- The job error list accumulated by delivering a report trace to
`_on_progress`, starting from an empty list. -/
def reportErrorEntries (reports : List Progress) : List JobError :=
  reports.foldl errTickStep []

/-- The dedup hypothesis on a state: every track of the list with a
truthy video id is already catalogued (ownerless and unique by id). -/
def allCatalogued (tracks : List Track) (st : RunState) : Prop :=
  ∀ u ∈ tracks, ∀ w, truthyVid u.videoId = some w →
    ∃ e, get_track_by_id st.db w = some e ∧ e.owner = none ∧
      ∀ s ∈ st.db.songs, s.videoId = w → s = e

/-! ## Theorems -/

/-- A table has an active record for the pair iff the filter is nonempty. -/
theorem filter_active_ne_nil_iff (db : JobsTable) (pid owner : String) :
    (db.filter (activeFor pid owner)).isEmpty = false ↔
      ∃ j ∈ db, activeFor pid owner j = true := by
  rw [Bool.eq_false_iff, Ne, List.isEmpty_iff]
  constructor
  · intro h
    rcases List.exists_mem_of_ne_nil _ h with ⟨j, hj⟩
    exact ⟨j, (List.mem_filter.mp hj).1, (List.mem_filter.mp hj).2⟩
  · rintro ⟨j, hj, hact⟩ hnil
    have := List.filter_eq_nil_iff.mp hnil j hj
    exact this hact

/-- The freshly inserted record is active exactly for its own pair. -/
theorem activeFor_newJobRec (pid owner jobId : String) (jt : JobType)
    (name now p o : String) :
    activeFor p o (newJobRec jobId jt pid owner name now) =
      (p == pid && o == owner) := by
  simp only [activeFor, newJobRec, JobStatus.isActive]
  cases h₁ : (p == pid) <;> cases h₂ : (o == owner) <;>
    simp_all [BEq.comm]

/--
C1.  Admission control: `check_and_create_job` preserves the invariant that
at most one record per `(playlistId, owner)` is non-terminal; it returns
`None` exactly when an active record already exists for the pair, in which
case nothing is mutated and the `POST /jobs` route answers Conflict; and
otherwise it inserts and returns a fresh PENDING record.
-/
theorem admission_control_check_and_create
    (db : JobsTable) (pid owner jobId : String) (jt : JobType)
    (name now : String) (hinv : AdmissionInv db) :
    AdmissionInv (check_and_create_job db pid owner jobId jt name now).2
  ∧ ((check_and_create_job db pid owner jobId jt name now).1 = none ↔
       ∃ j ∈ db, activeFor pid owner j = true)
  ∧ ((∃ j ∈ db, activeFor pid owner j = true) →
       (check_and_create_job db pid owner jobId jt name now).2 = db
     ∧ ∀ key, route_create_job db (some key) pid owner jobId name now =
         (.conflict, db))
  ∧ ((¬ ∃ j ∈ db, activeFor pid owner j = true) →
       (check_and_create_job db pid owner jobId jt name now).1 =
         some (newJobRec jobId jt pid owner name now)
     ∧ (newJobRec jobId jt pid owner name now).status = .pending
     ∧ (check_and_create_job db pid owner jobId jt name now).2 =
         db ++ [newJobRec jobId jt pid owner name now]) := by
  by_cases hex : ∃ j ∈ db, activeFor pid owner j = true
  · have hne : (db.filter (activeFor pid owner)).isEmpty = false :=
      (filter_active_ne_nil_iff db pid owner).mpr hex
    refine ⟨?_, ?_, ?_, ?_⟩
    · simpa [check_and_create_job, hne] using hinv
    · simp [check_and_create_job, hne, hex]
    · intro _
      constructor
      · simp [check_and_create_job, hne]
      · intro key
        simp [route_create_job, check_and_create_job, hne]
    · intro h; exact absurd hex h
  · have he : (db.filter (activeFor pid owner)).isEmpty = true := by
      rcases h : (db.filter (activeFor pid owner)).isEmpty with _ | _
      · exact absurd ((filter_active_ne_nil_iff db pid owner).mp h) hex
      · rfl
    refine ⟨?_, ?_, ?_, ?_⟩
    · intro p o
      simp only [check_and_create_job, he, if_pos]
      rw [List.filter_append]
      rw [List.length_append]
      by_cases hpo : p = pid ∧ o = owner
      · rcases hpo with ⟨rfl, rfl⟩
        have h0 : (db.filter (activeFor p o)).length = 0 := by
          rw [List.isEmpty_iff] at he
          simp [he]
        simp only [h0]
        have : ([newJobRec jobId jt p o name now].filter
            (activeFor p o)).length ≤ 1 := by
          simp [activeFor_newJobRec]
        omega
      · have hrec : activeFor p o (newJobRec jobId jt pid owner name now)
            = false := by
          rw [activeFor_newJobRec]
          rcases Decidable.not_and_iff_or_not.mp hpo with h | h <;>
            simp [beq_iff_eq, h]
        have h1 : ([newJobRec jobId jt pid owner name now].filter
            (activeFor p o)).length = 0 := by
          simp [hrec]
        have := hinv p o
        omega
    · simp [check_and_create_job, he, hex]
    · intro h; exact absurd h hex
    · intro _
      refine ⟨?_, rfl, ?_⟩ <;> simp [check_and_create_job, he, newJobRec]

/-- Witness for C1: on the empty table, creation succeeds with a PENDING
record, and the invariant holds afterwards. -/
theorem admission_control_check_and_create_witness :
    AdmissionInv ([] : JobsTable)
  ∧ (AdmissionInv (check_and_create_job [] "PL1" "alice" "job1" .enrichment
        "My list" "t0").2
   ∧ ((check_and_create_job [] "PL1" "alice" "job1" .enrichment
        "My list" "t0").1 = none ↔
        ∃ j ∈ ([] : JobsTable), activeFor "PL1" "alice" j = true)
   ∧ ((∃ j ∈ ([] : JobsTable), activeFor "PL1" "alice" j = true) →
        (check_and_create_job [] "PL1" "alice" "job1" .enrichment
          "My list" "t0").2 = []
      ∧ ∀ key, route_create_job [] (some key) "PL1" "alice" "job1"
          "My list" "t0" = (.conflict, []))
   ∧ ((¬ ∃ j ∈ ([] : JobsTable), activeFor "PL1" "alice" j = true) →
        (check_and_create_job [] "PL1" "alice" "job1" .enrichment
          "My list" "t0").1 =
          some (newJobRec "job1" .enrichment "PL1" "alice" "My list" "t0")
      ∧ (newJobRec "job1" .enrichment "PL1" "alice" "My list" "t0").status =
          .pending
      ∧ (check_and_create_job [] "PL1" "alice" "job1" .enrichment
          "My list" "t0").2 =
          [] ++ [newJobRec "job1" .enrichment "PL1" "alice" "My list" "t0"])) := by
  have hinv : AdmissionInv ([] : JobsTable) := by
    intro pid owner; simp [AdmissionInv]
  exact ⟨hinv, admission_control_check_and_create [] "PL1" "alice" "job1"
    .enrichment "My list" "t0" hinv⟩

/-! ### Association-list lemmas -/

theorem getAssoc_cons {α : Type} (k' : String) (v : α) (m : List (String × α))
    (k : String) :
    getAssoc ((k', v) :: m) k = if k' == k then some v else getAssoc m k := by
  simp only [getAssoc, List.filter_cons]
  cases h : (k' == k) <;> simp [h]

theorem getAssoc_eq_none_of_any_eq_false {α : Type} (m : List (String × α))
    (k : String) (h : m.any (fun e => e.1 == k) = false) :
    getAssoc m k = none := by
  induction m with
  | nil => rfl
  | cons e tl ih =>
    simp only [List.any_cons, Bool.or_eq_false_iff] at h
    rcases e with ⟨k', v⟩
    rw [getAssoc_cons, if_neg, ih h.2]
    simp [h.1]

theorem getAssoc_append_right {α : Type} (m m' : List (String × α)) (k : String)
    (h : getAssoc m k = none) :
    getAssoc (m ++ m') k = getAssoc m' k := by
  induction m with
  | nil => rfl
  | cons e tl ih =>
    rcases e with ⟨k', v⟩
    rw [getAssoc_cons] at h
    rcases hk : (k' == k) with _ | _
    · rw [List.cons_append, getAssoc_cons, if_neg (by simp [hk])]
      exact ih (by rwa [if_neg (by simp [hk])] at h)
    · rw [if_pos hk] at h; cases h

theorem getAssoc_replace_self {α : Type} (m : List (String × α)) (k : String)
    (v : α) (h : m.any (fun e => e.1 == k) = true) :
    getAssoc (m.map (fun e => if e.1 == k then (k, v) else e)) k = some v := by
  induction m with
  | nil => cases h
  | cons e tl ih =>
    simp only [List.any_cons, Bool.or_eq_true] at h
    rcases hk : (e.1 == k) with _ | _
    · rw [List.map_cons, if_neg (by simp [hk])]
      rcases e with ⟨k', v'⟩
      rw [getAssoc_cons, if_neg (by simpa using hk)]
      exact ih (by simpa [hk] using h)
    · rw [List.map_cons, if_pos hk, getAssoc_cons, if_pos (by simp)]

theorem getAssoc_setAssoc_self {α : Type} (m : List (String × α)) (k : String)
    (v : α) : getAssoc (setAssoc m k v) k = some v := by
  unfold setAssoc
  rcases h : m.any (fun e => e.1 == k) with _ | _
  · rw [if_neg (by simp)]
    rw [getAssoc_append_right _ _ _ (getAssoc_eq_none_of_any_eq_false m k h)]
    rw [getAssoc_cons, if_pos (by simp)]
  · rw [if_pos rfl]
    exact getAssoc_replace_self m k v h

/-- `update_ai_usage` increments the owner's persisted counters by exactly
the deltas, whether or not a record already existed. -/
theorem ownerPersisted_update_ai_usage (tbl : UsageTable) (owner : String)
    (dIn dOut : Int) (dCost : ℚ) :
    ownerPersisted (update_ai_usage tbl owner dIn dOut dCost).2 owner =
      (ownerPersisted tbl owner).add dIn dOut dCost := by
  unfold update_ai_usage ownerPersisted find_usage
  rcases h : getAssoc tbl owner with _ | current
  · rw [getAssoc_append_right _ _ _ h, getAssoc_cons, if_pos (by simp)]
    simp [Usage.add, Usage.zero]
  · rw [getAssoc_setAssoc_self]
    rfl

/-! ### Accountant run lemmas -/

/-- After a tick, a job's bookkeeping state holds this tick's cumulative
counters; the other jobs' states are untouched. -/
theorem prev_accStep (owner : String) (s : AccState) (e : JobTick)
    (j : String) :
    (accStep owner s e).prev j =
      if j == e.job then ⟨⟨e.tokens, 0, e.cost⟩, e.tokens, e.cost⟩
      else s.prev j := by
  show (if j == e.job
      then (usageTick owner e.tokens e.cost (s.prev e.job) s.live s.store).1
      else s.prev j) = _
  rcases h : (j == e.job) with _ | _
  · rw [if_neg (by simp), if_neg (by simp)]
  · rw [if_pos rfl, if_pos rfl]
    simp only [usageTick]
    split <;> rfl

/-- One accountant step moves the persisted pair by exactly
`current − previous` of the job that ticked, provided the cumulative
counters did not decrease. -/
theorem persistedPair_accStep (owner : String) (s : AccState) (e : JobTick)
    (hmt : (s.prev e.job).prevTokens ≤ e.tokens)
    (hmc : (s.prev e.job).prevCost ≤ e.cost) :
    persistedPair owner (accStep owner s e) =
      persistedPair owner s + ((e.tokens, e.cost) - prevPair s e.job) := by
  simp only [accStep, usageTick, persistedPair, prevPair]
  split
  · rw [ownerPersisted_update_ai_usage]
    simp only [Usage.add, Prod.mk_add_mk, Prod.mk_sub_mk]
  · rename_i hneg
    push_neg at hneg
    have h1' : e.tokens = (s.prev e.job).prevTokens := by
      have := hneg.1; omega
    have h2' : e.cost = (s.prev e.job).prevCost := by
      have := hneg.2
      linarith
    simp [h1', h2', Prod.mk_add_mk, Prod.mk_sub_mk]

/-- Updating a function at one point shifts a duplicate-free sum by the
change at that point. -/
theorem sum_map_update_point (J : List String) (hJ : J.Nodup) (a : String)
    (ha : a ∈ J) (f g : String → Int × ℚ)
    (hne : ∀ j, j ≠ a → g j = f j) :
    (J.map g).sum = (J.map f).sum + (g a - f a) := by
  induction J with
  | nil => cases ha
  | cons b tl ih =>
    rcases List.nodup_cons.mp hJ with ⟨hb, htl⟩
    rcases List.mem_cons.mp ha with rfl | hatl
    · have : tl.map g = tl.map f := by
        apply List.map_congr_left
        intro j hj
        exact hne j (fun hja => hb (hja ▸ hj))
      simp only [List.map_cons, List.sum_cons, this]
      abel
    · have hba : b ≠ a := fun hba => hb (hba ▸ hatl)
      simp only [List.map_cons, List.sum_cons, hne b hba,
        ih htl hatl]
      abel

/-- Along a run, a job's previous-tick pair is the last of its own
cumulative reports (its starting value if it never reported). -/
theorem prevPair_accRun (owner : String) (es : List JobTick) :
    ∀ (s : AccState) (j : String),
    prevPair (accRun owner s es) j =
      es.foldl (fun acc e => if e.job == j then (e.tokens, e.cost) else acc)
        (prevPair s j) := by
  induction es with
  | nil => intro s j; rfl
  | cons e tl ih =>
    intro s j
    show prevPair (accRun owner (accStep owner s e) tl) j = _
    rw [ih]
    simp only [List.foldl_cons]
    congr 1
    rw [prevPair, prev_accStep]
    rcases h : (j == e.job) with _ | _
    · have h' : ¬((e.job == j) = true) := by
        simp only [beq_eq_false_iff_ne] at h
        simp only [beq_iff_eq]
        exact fun hh => h hh.symm
      rw [if_neg h']
      rfl
    · have h' : (e.job == j) = true := by
        simp only [beq_iff_eq] at h ⊢
        exact h.symm
      rw [if_pos h']
      simp

/-- The telescoping invariant: a monotone run moves the persisted pair by
the total movement of the per-job previous-tick pairs. -/
theorem persistedPair_accRun (owner : String) (J : List String)
    (hJ : J.Nodup) (es : List JobTick) :
    ∀ (s : AccState), ticksMonotone owner s es = true →
    (∀ e ∈ es, e.job ∈ J) →
    persistedPair owner (accRun owner s es) =
      persistedPair owner s +
        ((J.map (prevPair (accRun owner s es))).sum - (J.map (prevPair s)).sum) := by
  induction es with
  | nil =>
    intro s _ _
    simp [accRun]
  | cons e tl ih =>
    intro s hmono hjobs
    simp only [ticksMonotone, Bool.and_eq_true, decide_eq_true_eq] at hmono
    rcases hmono with ⟨⟨hmt, hmc⟩, hmono⟩
    have hjtl : ∀ x ∈ tl, x.job ∈ J := fun x hx => hjobs x (List.mem_cons_of_mem _ hx)
    have hstep : accRun owner s (e :: tl) = accRun owner (accStep owner s e) tl := rfl
    rw [hstep, ih (accStep owner s e) hmono hjtl]
    rw [persistedPair_accStep owner s e hmt hmc]
    have hsum : (J.map (prevPair (accStep owner s e))).sum =
        (J.map (prevPair s)).sum + ((e.tokens, e.cost) - prevPair s e.job) := by
      rw [sum_map_update_point J hJ e.job (hjobs e (List.mem_cons_self e tl))
        (prevPair s) (prevPair (accStep owner s e))]
      · rw [prevPair, prev_accStep, if_pos (by simp)]
      · intro j hj
        rw [prevPair, prev_accStep, if_neg (by simp [hj]), prevPair]
    rw [hsum]
    abel

/--
C2.  Usage accounting by deltas: each `_on_progress` tick records the
tick's cumulative counters as the new "previous" values, merges
`delta = current − previous` into the owner's live usage map, issues the
persisted atomic increment exactly when the delta is positive (hence only
when it is non-zero, leaving the store untouched otherwise), and after an
arbitrary interleaving of monotone per-job tick sequences the persisted
owner usage equals the baseline plus the sum over the jobs of each job's
own final cumulative (tokens, cost) — the telescoped sum of its deltas.
-/
theorem usage_accounting_by_deltas (owner : String) (tbl t : UsageTable)
    (J : List String) (es : List JobTick)
    (tokens : Int) (cost : ℚ) (ts : TickState) (live : List (String × Usage))
    (hJ : J.Nodup)
    (hmono : ticksMonotone owner (AccState.init tbl) es = true)
    (hjobs : ∀ e ∈ es, e.job ∈ J) :
    (usageTick owner tokens cost ts live t).1 = ⟨⟨tokens, 0, cost⟩, tokens, cost⟩
  ∧ ((usageTick owner tokens cost ts live t).2.2.2 = true ↔
      (tokens - ts.prevTokens > 0 ∨ cost - ts.prevCost > 0))
  ∧ ((usageTick owner tokens cost ts live t).2.2.2 = true →
      ¬(tokens - ts.prevTokens = 0 ∧ cost - ts.prevCost = 0))
  ∧ ((usageTick owner tokens cost ts live t).2.2.2 = false →
      (usageTick owner tokens cost ts live t).2.2.1 = t
    ∧ getAssoc (usageTick owner tokens cost ts live t).2.1 owner =
        some ⟨((getAssoc live owner).getD Usage.zero).inputTokens +
                (tokens - ts.prevTokens),
              ((getAssoc live owner).getD Usage.zero).outputTokens,
              ((getAssoc live owner).getD Usage.zero).cost +
                (cost - ts.prevCost)⟩)
  ∧ ((usageTick owner tokens cost ts live t).2.2.2 = true →
      ownerPersisted (usageTick owner tokens cost ts live t).2.2.1 owner =
        (ownerPersisted t owner).add (tokens - ts.prevTokens) 0
          (cost - ts.prevCost))
  ∧ persistedPair owner (accRun owner (AccState.init tbl) es) =
      persistedPair owner (AccState.init tbl) + (J.map (lastCum es)).sum := by
  refine ⟨?_, ?_, ?_, ?_, ?_, ?_⟩
  · simp only [usageTick]; split <;> rfl
  · by_cases hc : (tokens - ts.prevTokens > 0 ∨ cost - ts.prevCost > 0)
    · simp only [usageTick, if_pos hc]
      exact iff_of_true (by trivial) hc
    · simp only [usageTick, if_neg hc]
      exact iff_of_false (by simp) hc
  · intro h hz
    by_cases hc : (tokens - ts.prevTokens > 0 ∨ cost - ts.prevCost > 0)
    · rcases hz with ⟨h1, h2⟩
      rw [h1, h2] at hc
      simp at hc
    · simp only [usageTick, if_neg hc] at h
      simp at h
  · intro h
    by_cases hc : (tokens - ts.prevTokens > 0 ∨ cost - ts.prevCost > 0)
    · simp only [usageTick, if_pos hc] at h
      simp at h
    · simp only [usageTick, if_neg hc]
      exact ⟨by trivial, getAssoc_setAssoc_self _ _ _⟩
  · intro h
    by_cases hc : (tokens - ts.prevTokens > 0 ∨ cost - ts.prevCost > 0)
    · simp only [usageTick, if_pos hc]
      rw [ownerPersisted_update_ai_usage]
    · simp only [usageTick, if_neg hc] at h
      simp at h
  · rw [persistedPair_accRun owner J hJ es (AccState.init tbl) hmono hjobs]
    congr 1
    have hzero : (J.map (prevPair (AccState.init tbl))).sum = 0 := by
      have : J.map (prevPair (AccState.init tbl)) =
          J.map (fun _ => ((0 : Int), (0 : ℚ))) := by
        apply List.map_congr_left
        intro j _; rfl
      rw [this]
      induction J with
      | nil => rfl
      | cons b tlJ ihJ => simp [ihJ]
    rw [hzero, sub_zero]
    refine congrArg List.sum (List.map_congr_left ?_)
    intro j _
    rw [prevPair_accRun]
    rfl

/-- Witness for C2: jobs A and B of the same owner tick concurrently,
A with cumulatives 100 then 300 and B with 50 then 150; the persisted
counters end at the sum of the final cumulatives, 450 tokens — never the
sum of-final-absolutes of a double count. -/
theorem usage_accounting_by_deltas_witness :
    (["A", "B"] : List String).Nodup
  ∧ ticksMonotone "alice" (AccState.init [])
      [⟨"A", 100, 0⟩, ⟨"B", 50, 0⟩, ⟨"A", 300, 0⟩, ⟨"B", 150, 0⟩] = true
  ∧ (∀ e ∈ ([⟨"A", 100, 0⟩, ⟨"B", 50, 0⟩, ⟨"A", 300, 0⟩, ⟨"B", 150, 0⟩] :
        List JobTick), e.job ∈ (["A", "B"] : List String))
  ∧ persistedPair "alice" (accRun "alice" (AccState.init [])
      [⟨"A", 100, 0⟩, ⟨"B", 50, 0⟩, ⟨"A", 300, 0⟩, ⟨"B", 150, 0⟩]) =
      persistedPair "alice" (AccState.init []) +
        ((["A", "B"] : List String).map (lastCum
          [⟨"A", 100, 0⟩, ⟨"B", 50, 0⟩, ⟨"A", 300, 0⟩, ⟨"B", 150, 0⟩])).sum
  ∧ (persistedPair "alice" (accRun "alice" (AccState.init [])
      [⟨"A", 100, 0⟩, ⟨"B", 50, 0⟩, ⟨"A", 300, 0⟩, ⟨"B", 150, 0⟩])).1 = 450 := by
  have h1 : (["A", "B"] : List String).Nodup := by decide
  have h2 : ticksMonotone "alice" (AccState.init [])
      [⟨"A", 100, 0⟩, ⟨"B", 50, 0⟩, ⟨"A", 300, 0⟩, ⟨"B", 150, 0⟩] = true := by
    decide
  have h3 : ∀ e ∈ ([⟨"A", 100, 0⟩, ⟨"B", 50, 0⟩, ⟨"A", 300, 0⟩, ⟨"B", 150, 0⟩] :
      List JobTick), e.job ∈ (["A", "B"] : List String) := by decide
  exact ⟨h1, h2, h3,
    (usage_accounting_by_deltas "alice" [] [] ["A", "B"]
      [⟨"A", 100, 0⟩, ⟨"B", 50, 0⟩, ⟨"A", 300, 0⟩, ⟨"B", 150, 0⟩]
      0 0 TickState.init [] h1 h2 h3).2.2.2.2.2,
    by decide⟩

/--
C5.  The retry job worker always fails before processing any track: the
name `get_songs_storage` is referenced by `run_retry_job` but not bound in
the jobs logic module, so evaluating the arguments of
`retry_failed_tracks` raises `NameError`, the generic handler finalizes
the job with status ERROR (never COMPLETED or CANCELLED), the NameError
message becomes the job message and its only error entry, and no progress
tick is ever delivered.
-/
theorem run_retry_job_always_error (P : Ports) (jobId owner apiKey : String)
    (videoIds : Option (List String)) (obs : Nat → Bool) (maps0 : LiveMaps)
    (jobsDb0 : JobsTable) (usageTbl0 : UsageTable) (songsDb : SongsDB)
    (now : String) :
    (run_retry_job P jobId owner apiKey videoIds obs maps0 jobsDb0 usageTbl0
      songsDb now).2.1 = .error
  ∧ (run_retry_job P jobId owner apiKey videoIds obs maps0 jobsDb0 usageTbl0
      songsDb now).2.1 ≠ .completed
  ∧ (run_retry_job P jobId owner apiKey videoIds obs maps0 jobsDb0 usageTbl0
      songsDb now).2.1 ≠ .cancelled
  ∧ (run_retry_job P jobId owner apiKey videoIds obs maps0 jobsDb0 usageTbl0
      songsDb now).2.2 = "name 'get_songs_storage' is not defined"
  ∧ (run_retry_job P jobId owner apiKey videoIds obs maps0 jobsDb0 usageTbl0
      songsDb now).1.tick = TickState.init
  ∧ (run_retry_job P jobId owner apiKey videoIds obs maps0 jobsDb0 usageTbl0
      songsDb now).1.jobErrors =
      [⟨"", "", "name 'get_songs_storage' is not defined"⟩] := by
  have h : (run_retry_job P jobId owner apiKey videoIds obs maps0 jobsDb0
      usageTbl0 songsDb now).2.1 = .error := rfl
  refine ⟨h, ?_, ?_, rfl, rfl, rfl⟩
  · rw [h]; decide
  · rw [h]; decide

/-! ### C9: live-cache cleanup on finalize -/

theorem getAssoc_eraseAssoc {α : Type} (m : List (String × α)) (k : String) :
    getAssoc (eraseAssoc m k) k = none := by
  apply getAssoc_eq_none_of_any_eq_false
  rw [List.any_eq_false]
  intro e he
  have h2 := (List.mem_filter.mp he).2
  simp only [bne_iff_ne, ne_eq] at h2
  simp [h2]

theorem mergeFinalLive_fields (jobId : String) (prev : Option LiveJob)
    (status : JobStatus) (message : String) (errors : List JobError)
    (usage : Usage) :
    (mergeFinalLive jobId prev status message errors usage).status = status
  ∧ (mergeFinalLive jobId prev status message errors usage).errors = errors
  ∧ (mergeFinalLive jobId prev status message errors usage).message = message := by
  cases prev <;> exact ⟨rfl, rfl, rfl⟩

/-- The final status of the enrichment worker is always terminal. -/
theorem run_enrichment_job_status_terminal (P : Ports)
    (jobId pid owner : String) (wipe : Bool) (obs : Nat → Bool)
    (maps0 : LiveMaps) (jobsDb0 : JobsTable) (usageTbl0 : UsageTable)
    (songsDb : SongsDB) (now timestamp : String) :
    ((run_enrichment_job P jobId pid owner wipe obs maps0 jobsDb0 usageTbl0
      songsDb now timestamp).2.2.1).isTerminal = true := by
  simp only [run_enrichment_job]
  rcases (process_playlist P pid owner wipe obs songsDb timestamp).2 with err | v
  · cases err <;> rfl
  · rfl

/--
Counterexample to C9 as stated: after the worker of job `"job1"` finalizes
(a run over an empty playlist, ending COMPLETED), the job's entry is still
present in the in-memory live-state map — only the cancellation event was
removed — so the Live State Cache entries are *not* removed from the
in-memory maps.
-/
theorem live_cache_not_removed_counterexample :
    (get_live_state (run_enrichment_job
        ⟨fun _ => [], fun _ => .error "unused", fun _ _ => none,
         fun _ => .error "unused", fun _ => .error "unused",
         fun _ _ _ => .error "unused"⟩
        "job1" "PL1" "alice" false (fun _ => false) ⟨[], [], []⟩ [] []
        ⟨[], [], []⟩ "t1" "ts").1.maps "job1").isSome = true
  ∧ get_cancel_event (run_enrichment_job
        ⟨fun _ => [], fun _ => .error "unused", fun _ _ => none,
         fun _ => .error "unused", fun _ => .error "unused",
         fun _ _ _ => .error "unused"⟩
        "job1" "PL1" "alice" false (fun _ => false) ⟨[], [], []⟩ [] []
        ⟨[], [], []⟩ "t1" "ts").1.maps "job1" = none := by
  exact ⟨by decide, by decide⟩

/--
C9 amended.  When the enrichment worker finalizes it removes only the
job's cancellation event from the in-memory maps; the job's live-state
entry is retained, overwritten with the terminal snapshot (its status is
the job's terminal status); and a stream reader that finds no cache entry
for a job id falls back to the Persistence Port for the snapshot.
-/
theorem live_cache_cleanup_on_finalize (P : Ports) (jobId pid owner : String)
    (wipe : Bool) (obs : Nat → Bool) (maps0 : LiveMaps) (jobsDb0 : JobsTable)
    (usageTbl0 : UsageTable) (songsDb : SongsDB) (now timestamp : String)
    (maps : LiveMaps) (jobsDb : JobsTable) (jid : String)
    (hmiss : get_live_state maps jid = none) :
    get_cancel_event (run_enrichment_job P jobId pid owner wipe obs maps0
      jobsDb0 usageTbl0 songsDb now timestamp).1.maps jobId = none
  ∧ (∃ lj, get_live_state (run_enrichment_job P jobId pid owner wipe obs maps0
        jobsDb0 usageTbl0 songsDb now timestamp).1.maps jobId = some lj
      ∧ lj.status = (run_enrichment_job P jobId pid owner wipe obs maps0
          jobsDb0 usageTbl0 songsDb now timestamp).2.2.1
      ∧ lj.status.isTerminal = true)
  ∧ stream_read maps jobsDb jid =
      (match get_job jobsDb jid with
       | some j => .fromStore j
       | none => .notFound) := by
  refine ⟨?_, ?_, ?_⟩
  · exact getAssoc_eraseAssoc _ _
  · refine ⟨_, getAssoc_setAssoc_self _ _ _, ?_, ?_⟩
    · exact (mergeFinalLive_fields _ _ _ _ _ _).1
    · rw [(mergeFinalLive_fields _ _ _ _ _ _).1]
      exact run_enrichment_job_status_terminal P jobId pid owner wipe obs
        maps0 jobsDb0 usageTbl0 songsDb now timestamp
  · unfold stream_read
    rw [hmiss]

/-- Witness for C9 amended: a concrete finalized worker plus a reader that
misses the cache and serves the persisted record. -/
theorem live_cache_cleanup_on_finalize_witness :
    get_live_state (⟨[], [], []⟩ : LiveMaps) "jx" = none
  ∧ (get_cancel_event (run_enrichment_job
        ⟨fun _ => [], fun _ => .error "u", fun _ _ => none,
         fun _ => .error "u", fun _ => .error "u", fun _ _ _ => .error "u"⟩
        "job1" "PL1" "alice" false (fun _ => false) ⟨[], [], []⟩ [] []
        ⟨[], [], []⟩ "t1" "ts").1.maps "job1" = none
    ∧ (∃ lj, get_live_state (run_enrichment_job
          ⟨fun _ => [], fun _ => .error "u", fun _ _ => none,
           fun _ => .error "u", fun _ => .error "u", fun _ _ _ => .error "u"⟩
          "job1" "PL1" "alice" false (fun _ => false) ⟨[], [], []⟩ [] []
          ⟨[], [], []⟩ "t1" "ts").1.maps "job1" = some lj
        ∧ lj.status = (run_enrichment_job
            ⟨fun _ => [], fun _ => .error "u", fun _ _ => none,
             fun _ => .error "u", fun _ => .error "u", fun _ _ _ => .error "u"⟩
            "job1" "PL1" "alice" false (fun _ => false) ⟨[], [], []⟩ [] []
            ⟨[], [], []⟩ "t1" "ts").2.2.1
        ∧ lj.status.isTerminal = true)
    ∧ stream_read (⟨[], [], []⟩ : LiveMaps) [] "jx" =
        (match get_job [] "jx" with
         | some j => .fromStore j
         | none => .notFound)) :=
  ⟨rfl, live_cache_cleanup_on_finalize
    ⟨fun _ => [], fun _ => .error "u", fun _ _ => none,
     fun _ => .error "u", fun _ => .error "u", fun _ _ _ => .error "u"⟩
    "job1" "PL1" "alice" false (fun _ => false) ⟨[], [], []⟩ [] []
    ⟨[], [], []⟩ "t1" "ts" ⟨[], [], []⟩ [] "jx" rfl⟩

/-! ### Structural lemmas about the runner -/

/-- `save_track` never touches the history table. -/
theorem save_track_history (db : SongsDB) (td : TrackData) :
    (save_track db td).history = db.history := by
  unfold save_track
  rcases truthyVid (some td.videoId) with _ | vid <;> rfl

/-- A successful `_fetch_album_year` changes at most the album cache. -/
theorem fetchAlbumYear_ok (P : Ports) (st : RunState) (a : Option String)
    (y : Option String) (st' : RunState)
    (h : fetchAlbumYear P st a = .ok (y, st')) :
    ∃ c, st' = { st with albumCache := c } := by
  unfold fetchAlbumYear at h
  split at h
  · exact ⟨st.albumCache, by cases h; rfl⟩
  · split at h
    · exact ⟨st.albumCache, by cases h; rfl⟩
    · split at h
      · cases h
      · exact ⟨_, by cases h; rfl⟩

/-- A successful year resolution changes at most the album cache. -/
theorem yearStepOf_ok (P : Ports) (si : SongInfo) (track1 : Track)
    (st : RunState) (y : Option String) (st' : RunState)
    (h : yearStepOf P si track1 st = .ok (y, st')) :
    ∃ c, st' = { st with albumCache := c } := by
  unfold yearStepOf at h
  rcases hb : truthyStr si.year with _ | _
  · rw [if_neg (by simp [hb])] at h
    exact fetchAlbumYear_ok _ _ _ _ _ h
  · rw [if_pos hb] at h
    cases h
    exact ⟨_, rfl⟩

/-- The download-and-enrich phase preserves the history table and the
processed count and emits exactly one report, carrying the track index. -/
theorem enrichPhase_invariants (P : Ports) (owner : String) (total i : Nat)
    (vid title : String) (track1 : Track) (artistsDisplay : String)
    (albumYear playCount : Option String) (st : RunState) :
    (enrichPhase P owner total i vid title track1 artistsDisplay albumYear
      playCount st).db.history = st.db.history
  ∧ (enrichPhase P owner total i vid title track1 artistsDisplay albumYear
      playCount st).processedTracks = st.processedTracks
  ∧ (∃ l, (enrichPhase P owner total i vid title track1 artistsDisplay
        albumYear playCount st).reports = st.reports ++ l
      ∧ ∀ p ∈ l, p.current = i) := by
  rcases hd : P.download vid with e | fn
  · simp only [enrichPhase, hd]
    exact ⟨save_track_history _ _, rfl, ⟨_, rfl, by simp⟩⟩
  · rcases he : P.enrich fn title artistsDisplay with e | md
    · simp only [enrichPhase, hd, he]
      exact ⟨save_track_history _ _, rfl, ⟨_, rfl, by simp⟩⟩
    · simp only [enrichPhase, hd, he]
      exact ⟨save_track_history _ _, rfl, ⟨_, rfl, by simp⟩⟩

/-- The fetched-track body preserves the history table and the processed
count and reports only with the track's own index. -/
theorem processTrackFetched_invariants (P : Ports) (owner : String)
    (total i : Nat) (t : Track) (vid : String) (si : SongInfo)
    (st : RunState) :
    (processTrackFetched P owner total i t vid si st).1.db.history =
      st.db.history
  ∧ (processTrackFetched P owner total i t vid si st).1.processedTracks =
      st.processedTracks
  ∧ (∃ l, (processTrackFetched P owner total i t vid si st).1.reports =
        st.reports ++ l ∧ ∀ p ∈ l, p.current = i) := by
  rcases hy : yearStepOf P si (track1Of t si) st with e | p
  · simp only [processTrackFetched, hy]
    refine ⟨by simp, by simp, [], by simp, by simp⟩
  · obtain ⟨ay, st2⟩ := p
    obtain ⟨c, rfl⟩ := yearStepOf_ok _ _ _ _ _ _ hy
    rcases hm : si.isMusic with _ | _
    · simp only [processTrackFetched, hy, hm]
      rw [if_pos (by simp)]
      exact ⟨save_track_history _ _, rfl, ⟨_, rfl, by simp⟩⟩
    · simp only [processTrackFetched, hy, hm]
      rw [if_neg (by simp)]
      obtain ⟨h1, h2, l, h3, h4⟩ := enrichPhase_invariants P owner total i vid
        (t.title.getD "Unknown") (track1Of t si) (artistsDisplayOf t si) ay
        si.playCount { st with albumCache := c }
      exact ⟨h1, h2, ⟨l, h3, h4⟩⟩

/-- One iteration of the per-track body: the history table is preserved,
the processed-track count goes up by exactly one, and every emitted report
carries the track's own index as `current`. -/
theorem processTrack_invariants (P : Ports) (owner : String) (wipe : Bool)
    (total i : Nat) (t : Track) (st : RunState) :
    (processTrack P owner wipe total i t st).1.db.history = st.db.history
  ∧ (processTrack P owner wipe total i t st).1.processedTracks =
      st.processedTracks + 1
  ∧ (∃ l, (processTrack P owner wipe total i t st).1.reports =
        st.reports ++ l ∧ ∀ p ∈ l, p.current = i) := by
  rcases hv : truthyVid t.videoId with _ | vid
  · simp only [processTrack, hv]
    refine ⟨by simp, by simp, [], by simp, by simp⟩
  · rcases hd : (if ¬wipe then get_track_by_id
        (report { st with processedTracks := st.processedTracks + 1 } i total
          ("Processing: " ++ t.title.getD "Unknown" ++ " - " ++
            artistsJoin t.artists) none).db vid else none) with _ | ex
    · rcases hg : P.get_song vid with e | si
      · simp only [processTrack, hv, hd, hg]
        exact ⟨rfl, rfl, ⟨_, rfl, by simp⟩⟩
      · simp only [processTrack, hv, hd, hg]
        obtain ⟨h1, h2, l, h3, h4⟩ := processTrackFetched_invariants P owner
          total i t vid si { report
            { st with processedTracks := st.processedTracks + 1 } i total
            ("Processing: " ++ t.title.getD "Unknown" ++ " - " ++
              artistsJoin t.artists) none with
            getSongCalls := (report
              { st with processedTracks := st.processedTracks + 1 } i total
              ("Processing: " ++ t.title.getD "Unknown" ++ " - " ++
                artistsJoin t.artists) none).getSongCalls + 1 }
        refine ⟨h1, h2, ⟨(⟨i, total, "Processing: " ++ t.title.getD "Unknown"
          ++ " - " ++ artistsJoin t.artists,
          st.tracker.inputTokens + st.tracker.outputTokens,
          st.tracker.getCost, none⟩ : Progress) :: l, ?_, ?_⟩⟩
        · rw [h3]
          simp [report]
        · intro p hp
          rcases List.mem_cons.mp hp with rfl | hp
          · rfl
          · exact h4 p hp
    · simp only [processTrack, hv, hd]
      exact ⟨save_track_history _ _, rfl, ⟨_, rfl, by simp⟩⟩

/-- The loop never touches the history table. -/
theorem runLoop_history (P : Ports) (owner : String) (wipe : Bool)
    (total : Nat) (obs : Nat → Bool) :
    ∀ (ts : List Track) (i : Nat) (st : RunState),
    (runLoop P owner wipe total obs i ts st).1.db.history = st.db.history := by
  intro ts
  induction ts with
  | nil => intro i st; rfl
  | cons t rest ih =>
    intro i st
    rcases ho : obs i with _ | _
    · rcases hp : processTrack P owner wipe total i t st with ⟨st', r⟩
      have hh : st'.db.history = st.db.history := by
        have h := (processTrack_invariants P owner wipe total i t st).1
        rw [hp] at h
        exact h
      rcases r with _ | e
      · simp only [runLoop, ho, Bool.false_eq_true, if_false, hp]
        rw [ih, hh]
      · simp only [runLoop, ho, Bool.false_eq_true, if_false, hp]
        exact hh
    · simp only [runLoop, ho, if_true]

/-- A set cancellation signal is still set at every later check. -/
theorem obs_monotone_le (obs : Nat → Bool)
    (hm : ∀ k, obs k = true → obs (k + 1) = true) :
    ∀ a b, a ≤ b → obs a = true → obs b = true := by
  intro a b hab ha
  induction hab with
  | refl => exact ha
  | step _ ih => exact hm _ ih

/-- Once the signal is set (at index `j`), the loop processes no track
with an index ≥ j: the total processed count is bounded by `j - i`. -/
theorem runLoop_processed_bound (P : Ports) (owner : String) (wipe : Bool)
    (total : Nat) (obs : Nat → Bool)
    (hm : ∀ k, obs k = true → obs (k + 1) = true)
    (j : Nat) (hj : obs j = true) :
    ∀ (ts : List Track) (i : Nat) (st : RunState),
    (runLoop P owner wipe total obs i ts st).1.processedTracks ≤
      st.processedTracks + (j - i) := by
  intro ts
  induction ts with
  | nil => intro i st; simp [runLoop]
  | cons t rest ih =>
    intro i st
    rcases ho : obs i with _ | _
    · have hij : i < j := by
        by_contra hc
        push_neg at hc
        have h := obs_monotone_le obs hm j i hc hj
        rw [ho] at h
        cases h
      rcases hp : processTrack P owner wipe total i t st with ⟨st', r⟩
      have hcount : st'.processedTracks = st.processedTracks + 1 := by
        have h := (processTrack_invariants P owner wipe total i t st).2.1
        rw [hp] at h
        exact h
      rcases r with _ | e
      · simp only [runLoop, ho, Bool.false_eq_true, if_false, hp]
        have h := ih (i + 1) st'
        omega
      · simp only [runLoop, ho, Bool.false_eq_true, if_false, hp]
        omega
    · simp only [runLoop, ho, if_true]
      omega

/-- A list of reports all carrying the same index is ordered. -/
theorem chain_of_const (i : Nat) :
    ∀ (l : List Progress), (∀ p ∈ l, p.current = i) →
    List.Chain' (fun a b : Progress => a.current ≤ b.current) l := by
  intro l
  induction l with
  | nil => intro _; exact List.chain'_nil
  | cons p rest ih =>
    intro h
    rcases rest with _ | ⟨q, rest'⟩
    · exact List.chain'_singleton p
    · refine List.Chain'.cons ?_ (ih ?_)
      · rw [h p (by simp), h q (by simp)]
      · intro r hr
        exact h r (List.mem_cons_of_mem _ hr)

/-- Along the loop, the reported `current` values stay ordered and bounded
by the index range. -/
theorem runLoop_reports_ordered (P : Ports) (owner : String) (wipe : Bool)
    (total : Nat) (obs : Nat → Bool) :
    ∀ (ts : List Track) (i : Nat) (st : RunState),
    (∀ p ∈ st.reports, p.current ≤ i) →
    List.Chain' (fun a b : Progress => a.current ≤ b.current) st.reports →
    List.Chain' (fun a b : Progress => a.current ≤ b.current)
      (runLoop P owner wipe total obs i ts st).1.reports
    ∧ ∀ p ∈ (runLoop P owner wipe total obs i ts st).1.reports,
        p.current ≤ i + ts.length := by
  intro ts
  induction ts with
  | nil =>
    intro i st hb hc
    exact ⟨hc, fun p hp => Nat.le_trans (hb p hp) (by omega)⟩
  | cons t rest ih =>
    intro i st hb hc
    rcases ho : obs i with _ | _
    · rcases hp : processTrack P owner wipe total i t st with ⟨st', r⟩
      obtain ⟨hh, hcnt, l, hrep, hcur⟩ :=
        processTrack_invariants P owner wipe total i t st
      rw [hp] at hrep
      have hb' : ∀ p ∈ st'.reports, p.current ≤ i + 1 := by
        intro p hpp
        rw [hrep] at hpp
        rcases List.mem_append.mp hpp with h1 | h2
        · exact Nat.le_trans (hb p h1) (by omega)
        · rw [hcur p h2]
          omega
      have hc' : List.Chain' (fun a b : Progress => a.current ≤ b.current)
          st'.reports := by
        rw [hrep]
        rw [List.chain'_append]
        refine ⟨hc, chain_of_const i l hcur, ?_⟩
        intro x hx y hy
        have hxr : x ∈ st.reports := List.mem_of_mem_getLast? hx
        have hyl : y ∈ l := List.mem_of_mem_head? hy
        rw [hcur y hyl]
        exact hb x hxr
      rcases r with _ | e
      · simp only [runLoop, ho, Bool.false_eq_true, if_false, hp]
        obtain ⟨c1, c2⟩ := ih (i + 1) st' hb' hc'
        refine ⟨c1, fun p hpp => ?_⟩
        have := c2 p hpp
        simp only [List.length_cons]
        omega
      · simp only [runLoop, ho, Bool.false_eq_true, if_false, hp]
        refine ⟨hc', fun p hpp => ?_⟩
        have := hb' p hpp
        simp only [List.length_cons]
        omega
    · simp only [runLoop, ho, if_true]
      refine ⟨hc, fun p hpp => ?_⟩
      have := hb p hpp
      omega

/-- The loop only appends to the report trace. -/
theorem runLoop_reports_append (P : Ports) (owner : String) (wipe : Bool)
    (total : Nat) (obs : Nat → Bool) :
    ∀ (ts : List Track) (i : Nat) (st : RunState),
    ∃ L, (runLoop P owner wipe total obs i ts st).1.reports =
      st.reports ++ L := by
  intro ts
  induction ts with
  | nil => intro i st; exact ⟨[], by simp [runLoop]⟩
  | cons t rest ih =>
    intro i st
    rcases ho : obs i with _ | _
    · rcases hp : processTrack P owner wipe total i t st with ⟨st', r⟩
      obtain ⟨_, _, l, hrep, _⟩ := processTrack_invariants P owner wipe total i t st
      rw [hp] at hrep
      rcases r with _ | e
      · obtain ⟨L, hL⟩ := ih (i + 1) st'
        refine ⟨l ++ L, ?_⟩
        simp only [runLoop, ho, Bool.false_eq_true, if_false, hp]
        rw [hL, hrep, List.append_assoc]
      · refine ⟨l, ?_⟩
        simp only [runLoop, ho, Bool.false_eq_true, if_false, hp]
        exact hrep
    · exact ⟨[], by simp [runLoop, ho]⟩

/--
Counterexample to C8 as stated: on a one-track playlist the runner reports
the `current` values 0, 0, 0, 1 — the same value is reported on
consecutive ticks (the per-track start and completion reports), so the
sequence is *not* strictly monotonic.
-/
theorem progress_not_strict_counterexample :
    ((process_playlist
        ⟨fun _ => [⟨some "v1", some "Song A", [⟨"Artist", none⟩], none, []⟩],
         fun _ => .ok ⟨some "Song A", true, true, [], none, some "2001", none, []⟩,
         fun _ _ => none, fun _ => .error "no album",
         fun _ => .ok "f.mp3",
         fun _ _ _ => .ok ⟨["Pop"], [], [], none, none, none⟩⟩
        "PL" "u" false (fun _ => false) ⟨[], [], []⟩ "t").1.reports.map
      (fun p => p.current)) = [0, 0, 0, 1]
  ∧ ¬ List.Chain' (fun a b : Nat => a < b)
      ((process_playlist
        ⟨fun _ => [⟨some "v1", some "Song A", [⟨"Artist", none⟩], none, []⟩],
         fun _ => .ok ⟨some "Song A", true, true, [], none, some "2001", none, []⟩,
         fun _ _ => none, fun _ => .error "no album",
         fun _ => .ok "f.mp3",
         fun _ _ _ => .ok ⟨["Pop"], [], [], none, none, none⟩⟩
        "PL" "u" false (fun _ => false) ⟨[], [], []⟩ "t").1.reports.map
      (fun p => p.current)) := by
  refine ⟨by decide, ?_⟩
  intro hchain
  have h : ((process_playlist
        ⟨fun _ => [⟨some "v1", some "Song A", [⟨"Artist", none⟩], none, []⟩],
         fun _ => .ok ⟨some "Song A", true, true, [], none, some "2001", none, []⟩,
         fun _ _ => none, fun _ => .error "no album",
         fun _ => .ok "f.mp3",
         fun _ _ _ => .ok ⟨["Pop"], [], [], none, none, none⟩⟩
        "PL" "u" false (fun _ => false) ⟨[], [], []⟩ "t").1.reports.map
      (fun p => p.current)) = [0, 0, 0, 1] := by decide
  rw [h] at hchain
  exact absurd (List.chain'_cons.mp hchain).1 (by decide)

/-- Characterisation of a non-empty run: the report trace and the outcome,
expressed through the loop. -/
theorem process_playlist_unfold (P : Ports) (pid owner : String)
    (wipe : Bool) (obs : Nat → Bool) (db : SongsDB) (timestamp : String)
    (t0 : Track) (ts0 : List Track) (htr : P.get_tracks pid = t0 :: ts0) :
    ((process_playlist P pid owner wipe obs db timestamp).1.reports =
      (match (runLoop P owner wipe (t0 :: ts0).length obs 0 (t0 :: ts0)
          (report (RunState.init db) 0 (t0 :: ts0).length "Fetching tracks..."
            none)).2 with
       | none => (report (runLoop P owner wipe (t0 :: ts0).length obs 0
            (t0 :: ts0) (report (RunState.init db) 0 (t0 :: ts0).length
              "Fetching tracks..." none)).1 (t0 :: ts0).length
            (t0 :: ts0).length "Enrichment complete" none).reports
       | some _ => (runLoop P owner wipe (t0 :: ts0).length obs 0 (t0 :: ts0)
            (report (RunState.init db) 0 (t0 :: ts0).length
              "Fetching tracks..." none)).1.reports))
  ∧ ((process_playlist P pid owner wipe obs db timestamp).2 =
      (match (runLoop P owner wipe (t0 :: ts0).length obs 0 (t0 :: ts0)
          (report (RunState.init db) 0 (t0 :: ts0).length "Fetching tracks..."
            none)).2 with
       | none => .ok (runLoop P owner wipe (t0 :: ts0).length obs 0 (t0 :: ts0)
            (report (RunState.init db) 0 (t0 :: ts0).length
              "Fetching tracks..." none)).1.results
       | some e => .error e)) := by
  rcases hloop : runLoop P owner wipe (t0 :: ts0).length obs 0 (t0 :: ts0)
      (report (RunState.init db) 0 (t0 :: ts0).length "Fetching tracks..."
        none) with ⟨st2, r⟩
  rcases r with _ | e <;>
    · constructor <;>
        simp only [process_playlist, htr, List.isEmpty_cons, Bool.false_eq_true,
          if_false, hloop]
      <;> rfl

/--
C8 amended.  Within one job the reported `current` values are
non-decreasing (not strictly increasing: the runner reports the same index
at a track\'s start and completion), stay bounded by `total`, start at 0,
and on the success path of a non-empty playlist the final tick reports
`current = total`.
-/
theorem progress_monotone_nondecreasing (P : Ports) (pid owner : String)
    (wipe : Bool) (obs : Nat → Bool) (db : SongsDB) (timestamp : String) :
    List.Chain' (fun a b : Nat => a ≤ b)
      ((process_playlist P pid owner wipe obs db timestamp).1.reports.map
        (fun p => p.current))
  ∧ (∀ p ∈ (process_playlist P pid owner wipe obs db timestamp).1.reports,
      p.current ≤ (P.get_tracks pid).length)
  ∧ (P.get_tracks pid ≠ [] →
      ((process_playlist P pid owner wipe obs db timestamp).1.reports.map
        (fun p => p.current)).head? = some 0)
  ∧ (∀ res, (process_playlist P pid owner wipe obs db timestamp).2 = .ok res →
      P.get_tracks pid ≠ [] →
      ((process_playlist P pid owner wipe obs db timestamp).1.reports.map
        (fun p => p.current)).getLast? = some (P.get_tracks pid).length) := by
  rcases htr : P.get_tracks pid with _ | ⟨t0, ts0⟩
  · refine ⟨?_, ?_, ?_, ?_⟩ <;> simp [process_playlist, htr, RunState.init]
  · obtain ⟨hrep, hret⟩ := process_playlist_unfold P pid owner wipe obs db
      timestamp t0 ts0 htr
    set T := (t0 :: ts0).length with hT
    set st1 := report (RunState.init db) 0 T "Fetching tracks..." none with hst1
    have hb1 : ∀ p ∈ st1.reports, p.current ≤ 0 := by
      intro p hp
      rcases List.mem_singleton.mp hp with rfl
      exact Nat.le_refl 0
    have hc1 : List.Chain' (fun a b : Progress => a.current ≤ b.current)
        st1.reports := List.chain'_singleton _
    obtain ⟨hchain2, hbound2⟩ := runLoop_reports_ordered P owner wipe T obs
      (t0 :: ts0) 0 st1 hb1 hc1
    obtain ⟨L2, hL2⟩ := runLoop_reports_append P owner wipe T obs
      (t0 :: ts0) 0 st1
    rcases hloop : (runLoop P owner wipe T obs 0 (t0 :: ts0) st1) with ⟨st2, r⟩
    rw [hloop] at hchain2 hbound2 hL2
    have hbound2' : ∀ p ∈ st2.reports, p.current ≤ T := by
      intro p hp
      have h := hbound2 p hp
      omega
    rcases r with _ | e
    · -- success path: a final report with current = total is appended
      rw [hloop] at hrep hret
      simp only at hrep hret
      refine ⟨?_, ?_, ?_, ?_⟩
      · rw [hrep]
        rw [List.chain'_map]
        simp only [report]
        rw [List.chain'_append]
        refine ⟨hchain2, List.chain'_singleton _, ?_⟩
        intro x hx y hy
        rcases List.mem_singleton.mp (List.mem_of_mem_head? hy) with rfl
        exact hbound2' x (List.mem_of_mem_getLast? hx)
      · intro p hp
        rw [hrep] at hp
        simp only [report] at hp
        rcases List.mem_append.mp hp with h1 | h2
        · exact hbound2' p h1
        · rcases List.mem_singleton.mp h2 with rfl
          exact Nat.le_refl _
      · intro _
        rw [hrep]
        simp only [report]
        rw [hL2]
        simp [st1, report, RunState.init]
      · intro res _ _
        rw [hrep]
        simp only [report]
        rw [List.map_append]
        simp only [List.map_cons, List.map_nil]
        rw [List.getLast?_concat]
    · -- abnormal end: no final report; the trace is the loop trace
      rw [hloop] at hrep hret
      simp only at hrep hret
      refine ⟨?_, ?_, ?_, ?_⟩
      · rw [hrep, List.chain'_map]
        exact hchain2
      · intro p hp
        rw [hrep] at hp
        exact hbound2' p hp
      · intro _
        rw [hrep, hL2]
        simp [st1, report, RunState.init]
      · intro res hres
        rw [hret] at hres
        cases hres

/-- Witness for C8 amended, on a concrete one-track run. -/
theorem progress_monotone_nondecreasing_witness :
    (Ports.get_tracks (⟨fun _ => [⟨some "v1", some "Song A", [⟨"Artist", none⟩], none, []⟩],
      fun _ => .ok ⟨some "Song A", true, true, [], none, some "2001", none, []⟩,
      fun _ _ => none, fun _ => .error "no album", fun _ => .ok "f.mp3",
      fun _ _ _ => .ok ⟨["Pop"], [], [], none, none, none⟩⟩ : Ports) "PL" ≠ [])
  ∧ (List.Chain' (fun a b : Nat => a ≤ b)
      ((process_playlist (⟨fun _ => [⟨some "v1", some "Song A", [⟨"Artist", none⟩], none, []⟩],
      fun _ => .ok ⟨some "Song A", true, true, [], none, some "2001", none, []⟩,
      fun _ _ => none, fun _ => .error "no album", fun _ => .ok "f.mp3",
      fun _ _ _ => .ok ⟨["Pop"], [], [], none, none, none⟩⟩ : Ports) "PL" "u" false (fun _ => false) ⟨[], [], []⟩
        "t").1.reports.map (fun p => p.current))
  ∧ (∀ p ∈ (process_playlist (⟨fun _ => [⟨some "v1", some "Song A", [⟨"Artist", none⟩], none, []⟩],
      fun _ => .ok ⟨some "Song A", true, true, [], none, some "2001", none, []⟩,
      fun _ _ => none, fun _ => .error "no album", fun _ => .ok "f.mp3",
      fun _ _ _ => .ok ⟨["Pop"], [], [], none, none, none⟩⟩ : Ports) "PL" "u" false (fun _ => false)
        ⟨[], [], []⟩ "t").1.reports,
      p.current ≤ (Ports.get_tracks (⟨fun _ => [⟨some "v1", some "Song A", [⟨"Artist", none⟩], none, []⟩],
      fun _ => .ok ⟨some "Song A", true, true, [], none, some "2001", none, []⟩,
      fun _ _ => none, fun _ => .error "no album", fun _ => .ok "f.mp3",
      fun _ _ _ => .ok ⟨["Pop"], [], [], none, none, none⟩⟩ : Ports) "PL").length)
  ∧ (Ports.get_tracks (⟨fun _ => [⟨some "v1", some "Song A", [⟨"Artist", none⟩], none, []⟩],
      fun _ => .ok ⟨some "Song A", true, true, [], none, some "2001", none, []⟩,
      fun _ _ => none, fun _ => .error "no album", fun _ => .ok "f.mp3",
      fun _ _ _ => .ok ⟨["Pop"], [], [], none, none, none⟩⟩ : Ports) "PL" ≠ [] →
      ((process_playlist (⟨fun _ => [⟨some "v1", some "Song A", [⟨"Artist", none⟩], none, []⟩],
      fun _ => .ok ⟨some "Song A", true, true, [], none, some "2001", none, []⟩,
      fun _ _ => none, fun _ => .error "no album", fun _ => .ok "f.mp3",
      fun _ _ _ => .ok ⟨["Pop"], [], [], none, none, none⟩⟩ : Ports) "PL" "u" false (fun _ => false) ⟨[], [], []⟩
        "t").1.reports.map (fun p => p.current)).head? = some 0)
  ∧ (∀ res, (process_playlist (⟨fun _ => [⟨some "v1", some "Song A", [⟨"Artist", none⟩], none, []⟩],
      fun _ => .ok ⟨some "Song A", true, true, [], none, some "2001", none, []⟩,
      fun _ _ => none, fun _ => .error "no album", fun _ => .ok "f.mp3",
      fun _ _ _ => .ok ⟨["Pop"], [], [], none, none, none⟩⟩ : Ports) "PL" "u" false (fun _ => false)
        ⟨[], [], []⟩ "t").2 = .ok res →
      Ports.get_tracks (⟨fun _ => [⟨some "v1", some "Song A", [⟨"Artist", none⟩], none, []⟩],
      fun _ => .ok ⟨some "Song A", true, true, [], none, some "2001", none, []⟩,
      fun _ _ => none, fun _ => .error "no album", fun _ => .ok "f.mp3",
      fun _ _ _ => .ok ⟨["Pop"], [], [], none, none, none⟩⟩ : Ports) "PL" ≠ [] →
      ((process_playlist (⟨fun _ => [⟨some "v1", some "Song A", [⟨"Artist", none⟩], none, []⟩],
      fun _ => .ok ⟨some "Song A", true, true, [], none, some "2001", none, []⟩,
      fun _ _ => none, fun _ => .error "no album", fun _ => .ok "f.mp3",
      fun _ _ _ => .ok ⟨["Pop"], [], [], none, none, none⟩⟩ : Ports) "PL" "u" false (fun _ => false) ⟨[], [], []⟩
        "t").1.reports.map (fun p => p.current)).getLast? =
        some (Ports.get_tracks (⟨fun _ => [⟨some "v1", some "Song A", [⟨"Artist", none⟩], none, []⟩],
      fun _ => .ok ⟨some "Song A", true, true, [], none, some "2001", none, []⟩,
      fun _ _ => none, fun _ => .error "no album", fun _ => .ok "f.mp3",
      fun _ _ _ => .ok ⟨["Pop"], [], [], none, none, none⟩⟩ : Ports) "PL").length)) :=
  ⟨by decide, progress_monotone_nondecreasing (⟨fun _ => [⟨some "v1", some "Song A", [⟨"Artist", none⟩], none, []⟩],
      fun _ => .ok ⟨some "Song A", true, true, [], none, some "2001", none, []⟩,
      fun _ _ => none, fun _ => .error "no album", fun _ => .ok "f.mp3",
      fun _ _ _ => .ok ⟨["Pop"], [], [], none, none, none⟩⟩ : Ports) "PL" "u" false
    (fun _ => false) ⟨[], [], []⟩ "t"⟩

/-! ### C10: the history write at job end -/

theorem filter_key_map_const {α : Type} (key : α → Bool) (rec : α)
    (hrec : key rec = true) :
    ∀ (h : List α), (h.map (fun x => if key x then rec else x)).filter key =
      (h.filter key).map (fun _ => rec) := by
  intro h
  induction h with
  | nil => rfl
  | cons x tl ih =>
    rcases hx : key x with _ | _ <;> simp [hx, hrec, ih]

theorem filter_notkey_map_const {α : Type} (key : α → Bool) (rec : α)
    (hrec : key rec = true) :
    ∀ (h : List α),
      (h.map (fun x => if key x then rec else x)).filter (fun x => !key x) =
      h.filter (fun x => !key x) := by
  intro h
  induction h with
  | nil => rfl
  | cons x tl ih =>
    rcases hx : key x with _ | _ <;> simp [hx, hrec, ih]

theorem length_filter_pos_of_any {α : Type} (key : α → Bool) :
    ∀ (h : List α), h.any key = true → 1 ≤ (h.filter key).length := by
  intro h ha
  rcases List.any_eq_true.mp ha with ⟨x, hx, hkx⟩
  have hmem : x ∈ h.filter key := List.mem_filter.mpr ⟨hx, hkx⟩
  exact List.length_pos_of_mem hmem

theorem map_const_of_length_one {α : Type} (rec : α) (l : List α)
    (h : l.length = 1) : l.map (fun _ => rec) = [rec] := by
  rcases l with _ | ⟨x, tl⟩
  · cases h
  · rcases tl with _ | _
    · rfl
    · simp at h

theorem filter_key_map_merge {α : Type} (key : α → Bool) (g : α → α)
    (hg : ∀ x, key (g x) = true) :
    ∀ (h : List α), (h.map (fun x => if key x then g x else x)).filter key =
      (h.filter key).map g := by
  intro h
  induction h with
  | nil => rfl
  | cons x tl ih =>
    rcases hx : key x with _ | _ <;> simp [hx, hg, ih]

theorem filter_notkey_map_merge {α : Type} (key : α → Bool) (g : α → α)
    (hg : ∀ x, key (g x) = true) :
    ∀ (h : List α),
      (h.map (fun x => if key x then g x else x)).filter (fun x => !key x) =
      h.filter (fun x => !key x) := by
  intro h
  induction h with
  | nil => rfl
  | cons x tl ih =>
    rcases hx : key x with _ | _ <;> simp [hx, hg, ih]

/-- `historyUpsert` on the written pair: a fresh insert when the pair has
no record, otherwise a key-merge onto the previous record — the
always-present keys overwrite it, the `error` value only when the new
metadata carries the key.  Other pairs' records are never touched. -/
theorem historyUpsert_spec (h : List HistoryRec) (pid owner : String)
    (meta : HistoryMeta) :
    (h.filter (fun x => x.playlistId == pid && x.owner == owner) = [] →
      (historyUpsert h pid owner meta).filter
          (fun x => x.playlistId == pid && x.owner == owner) =
        [⟨pid, owner, meta.timestamp, meta.itemCount, meta.status,
          meta.error⟩])
  ∧ (∀ prev,
      h.filter (fun x => x.playlistId == pid && x.owner == owner) = [prev] →
      (historyUpsert h pid owner meta).filter
          (fun x => x.playlistId == pid && x.owner == owner) =
        [⟨pid, owner, meta.timestamp, meta.itemCount, meta.status,
          match meta.error with
          | some e => some e
          | none => prev.error⟩])
  ∧ (historyUpsert h pid owner meta).filter
        (fun x => !(x.playlistId == pid && x.owner == owner)) =
      h.filter (fun x => !(x.playlistId == pid && x.owner == owner)) := by
  have hg : ∀ x : HistoryRec,
      (((⟨pid, owner, meta.timestamp, meta.itemCount, meta.status,
        match meta.error with
        | some e => some e
        | none => x.error⟩ : HistoryRec)).playlistId == pid &&
       ((⟨pid, owner, meta.timestamp, meta.itemCount, meta.status,
        match meta.error with
        | some e => some e
        | none => x.error⟩ : HistoryRec)).owner == owner) = true := by
    intro x
    simp
  refine ⟨?_, ?_, ?_⟩
  · intro hnil
    have ha : h.any (fun x => x.playlistId == pid && x.owner == owner)
        = false := by
      rw [List.any_eq_false]
      intro x hx
      have := List.filter_eq_nil_iff.mp hnil x hx
      simpa using this
    simp only [historyUpsert, ha, Bool.false_eq_true, if_false]
    rw [List.filter_append, hnil]
    simp
  · intro prev hprev
    have hmem := List.mem_filter.mp (show prev ∈ h.filter
        (fun x => x.playlistId == pid && x.owner == owner) by
      rw [hprev]
      exact List.mem_cons_self _ _)
    have ha : h.any (fun x => x.playlistId == pid && x.owner == owner)
        = true := by
      rw [List.any_eq_true]
      exact ⟨prev, hmem.1, hmem.2⟩
    simp only [historyUpsert, ha, if_true]
    rw [filter_key_map_merge
      (fun x : HistoryRec => x.playlistId == pid && x.owner == owner)
      (fun x : HistoryRec => ⟨pid, owner, meta.timestamp, meta.itemCount,
        meta.status,
        match meta.error with
        | some e => some e
        | none => x.error⟩)
      hg h, hprev]
    rfl
  · rcases ha : h.any (fun x => x.playlistId == pid && x.owner == owner)
        with _ | _
    · simp only [historyUpsert, ha, Bool.false_eq_true, if_false]
      rw [List.filter_append]
      simp
    · simp only [historyUpsert, ha, if_true]
      exact filter_notkey_map_merge
        (fun x : HistoryRec => x.playlistId == pid && x.owner == owner)
        (fun x : HistoryRec => ⟨pid, owner, meta.timestamp, meta.itemCount,
          meta.status,
          match meta.error with
          | some e => some e
          | none => x.error⟩)
        hg h

/-- The final history of a non-empty run, as a function of the starting
history: an upsert of the completed / error audit record. -/
theorem process_playlist_history (P : Ports) (pid owner : String)
    (wipe : Bool) (obs : Nat → Bool) (db : SongsDB) (timestamp : String)
    (t0 : Track) (ts0 : List Track) (htr : P.get_tracks pid = t0 :: ts0) :
    (process_playlist P pid owner wipe obs db timestamp).1.db.history =
      (match (runLoop P owner wipe (t0 :: ts0).length obs 0 (t0 :: ts0)
          (report (RunState.init db) 0 (t0 :: ts0).length "Fetching tracks..."
            none)).2 with
       | none => historyUpsert db.history pid owner
          ⟨timestamp, (runLoop P owner wipe (t0 :: ts0).length obs 0
            (t0 :: ts0) (report (RunState.init db) 0 (t0 :: ts0).length
              "Fetching tracks..." none)).1.results.length, "completed", none⟩
       | some err => historyUpsert db.history pid owner
          ⟨timestamp, 0, "error", some (match err with
             | .cancelled => "Job cancelled by user"
             | .exc m => m)⟩) := by
  have hh := runLoop_history P owner wipe (t0 :: ts0).length obs (t0 :: ts0)
    0 (report (RunState.init db) 0 (t0 :: ts0).length "Fetching tracks..." none)
  rcases hloop : runLoop P owner wipe (t0 :: ts0).length obs 0 (t0 :: ts0)
      (report (RunState.init db) 0 (t0 :: ts0).length "Fetching tracks..."
        none) with ⟨st2, r⟩
  rw [hloop] at hh
  rcases r with _ | e <;>
  · simp only [process_playlist, htr, List.isEmpty_cons, Bool.false_eq_true,
      if_false, hloop, save_enrichment_history]
    simp only [report, RunState.init] at hh ⊢
    rw [hh]

/--
Counterexample to C10 as stated: the history write is an upsert keyed by
`(playlistId, owner)` — a second run over the same playlist and owner
*overwrites* the first audit record instead of appending — and on
cancellation the record carries status `"error"` and item count 0 even
though the job's final status is CANCELLED.
-/
theorem history_not_append_only_counterexample :
    (save_enrichment_history
      (save_enrichment_history ⟨[], [], []⟩ "PL" "u" ⟨"t1", 5, "completed", none⟩)
      "PL" "u" ⟨"t2", 7, "completed", none⟩).history =
      [⟨"PL", "u", "t2", 7, "completed", none⟩]
  ∧ (save_enrichment_history ⟨[], [], []⟩ "PL" "u"
      ⟨"t1", 5, "completed", none⟩).history = [⟨"PL", "u", "t1", 5, "completed", none⟩]
  ∧ (save_enrichment_history
      (save_enrichment_history ⟨[], [], []⟩ "PL" "u" ⟨"t1", 5, "completed", none⟩)
      "PL" "u" ⟨"t2", 7, "completed", none⟩).history ≠
      (save_enrichment_history ⟨[], [], []⟩ "PL" "u"
        ⟨"t1", 5, "completed", none⟩).history ++
        [⟨"PL", "u", "t2", 7, "completed", none⟩]
  ∧ (process_playlist
      ⟨fun _ => [⟨some "v1", some "Song A", [], none, []⟩],
       fun _ => .error "u", fun _ _ => none, fun _ => .error "u",
       fun _ => .error "u", fun _ _ _ => .error "u"⟩
      "PL" "u" false (fun _ => true) ⟨[], [], []⟩ "tc").1.db.history =
      [⟨"PL", "u", "tc", 0, "error", some "Job cancelled by user"⟩]
  ∧ (run_enrichment_job
      ⟨fun _ => [⟨some "v1", some "Song A", [], none, []⟩],
       fun _ => .error "u", fun _ _ => none, fun _ => .error "u",
       fun _ => .error "u", fun _ _ _ => .error "u"⟩
      "j1" "PL" "u" false (fun _ => true) ⟨[], [], []⟩ [] [] ⟨[], [], []⟩
      "n" "tc").2.2.1 = .cancelled := by
  exact ⟨by decide, by decide, by decide, by decide, by decide⟩

/--
C10 amended.  At the end of every run over a non-empty playlist an audit
record carrying the timestamp, a processed-track count (0 on abnormal
end), and a status string (`"completed"` on success, `"error"` otherwise
— also on cancellation, where the job's own terminal status is CANCELLED)
is **upserted** into the history store keyed by `(playlistId, owner)`,
with TinyDB's key-merge semantics: when the pair has no record the new
record is inserted; otherwise the always-present keys overwrite the
pair's previous record while the `error` key — written only on abnormal
end — is merged, so a stale error value from an earlier failed run
survives a later completed write.  Other pairs' records are never
touched.  A run over an empty playlist writes no record.
-/
theorem history_upserted_at_job_end (db : SongsDB) (pid owner : String)
    (meta : HistoryMeta) (P : Ports) (wipe : Bool) (obs : Nat → Bool)
    (timestamp : String) :
    (db.history.filter (fun x => x.playlistId == pid && x.owner == owner)
        = [] →
      (historyUpsert db.history pid owner meta).filter
          (fun x => x.playlistId == pid && x.owner == owner) =
        [⟨pid, owner, meta.timestamp, meta.itemCount, meta.status,
          meta.error⟩])
  ∧ (∀ prev,
      db.history.filter (fun x => x.playlistId == pid && x.owner == owner)
        = [prev] →
      (historyUpsert db.history pid owner meta).filter
          (fun x => x.playlistId == pid && x.owner == owner) =
        [⟨pid, owner, meta.timestamp, meta.itemCount, meta.status,
          match meta.error with
          | some e => some e
          | none => prev.error⟩])
  ∧ (historyUpsert db.history pid owner meta).filter
        (fun x => !(x.playlistId == pid && x.owner == owner)) =
      db.history.filter (fun x => !(x.playlistId == pid && x.owner == owner))
  ∧ (∀ prev e,
      db.history.filter (fun x => x.playlistId == pid && x.owner == owner)
        = [prev] →
      prev.error = some e → meta.status = "completed" → meta.error = none →
      (historyUpsert db.history pid owner meta).filter
          (fun x => x.playlistId == pid && x.owner == owner) =
        [⟨pid, owner, meta.timestamp, meta.itemCount, "completed", some e⟩])
  ∧ (P.get_tracks pid = [] →
      (process_playlist P pid owner wipe obs db timestamp).1.db.history =
        db.history)
  ∧ (∀ res, (process_playlist P pid owner wipe obs db timestamp).2 = .ok res →
      P.get_tracks pid ≠ [] →
      (process_playlist P pid owner wipe obs db timestamp).1.db.history =
        historyUpsert db.history pid owner
          ⟨timestamp, res.length, "completed", none⟩)
  ∧ ((process_playlist P pid owner wipe obs db timestamp).2 =
        .error .cancelled →
      (process_playlist P pid owner wipe obs db timestamp).1.db.history =
        historyUpsert db.history pid owner
          ⟨timestamp, 0, "error", some "Job cancelled by user"⟩)
  ∧ (∀ m, (process_playlist P pid owner wipe obs db timestamp).2 =
        .error (.exc m) →
      (process_playlist P pid owner wipe obs db timestamp).1.db.history =
        historyUpsert db.history pid owner ⟨timestamp, 0, "error", some m⟩) := by
  obtain ⟨hu1, hu2, hu3⟩ := historyUpsert_spec db.history pid owner meta
  refine ⟨hu1, hu2, hu3, ?_, ?_, ?_, ?_, ?_⟩
  · intro prev e hprev herr hst hnone
    have h2 := hu2 prev hprev
    rw [hnone] at h2
    rw [herr, hst] at h2
    exact h2
  · intro htr
    simp [process_playlist, htr, RunState.init]
  · intro res hok hne
    rcases htr : P.get_tracks pid with _ | ⟨t0, ts0⟩
    · exact absurd htr hne
    · have hh := process_playlist_history P pid owner wipe obs db timestamp
        t0 ts0 htr
      obtain ⟨_, hret⟩ := process_playlist_unfold P pid owner wipe obs db
        timestamp t0 ts0 htr
      rw [hret] at hok
      rcases hloop : (runLoop P owner wipe (t0 :: ts0).length obs 0 (t0 :: ts0)
          (report (RunState.init db) 0 (t0 :: ts0).length "Fetching tracks..."
            none)) with ⟨st2, r⟩
      rw [hloop] at hok hh
      rcases r with _ | e
      · simp only at hok hh
        cases hok
        exact hh
      · simp only at hok
        cases hok
  · intro hcan
    rcases htr : P.get_tracks pid with _ | ⟨t0, ts0⟩
    · rw [process_playlist, htr] at hcan
      simp at hcan
    · have hh := process_playlist_history P pid owner wipe obs db timestamp
        t0 ts0 htr
      obtain ⟨_, hret⟩ := process_playlist_unfold P pid owner wipe obs db
        timestamp t0 ts0 htr
      rw [hret] at hcan
      rcases hloop : (runLoop P owner wipe (t0 :: ts0).length obs 0 (t0 :: ts0)
          (report (RunState.init db) 0 (t0 :: ts0).length "Fetching tracks..."
            none)) with ⟨st2, r⟩
      rw [hloop] at hcan hh
      rcases r with _ | e
      · simp only at hcan
        cases hcan
      · simp only at hcan hh
        cases hcan
        exact hh
  · intro m hexc
    rcases htr : P.get_tracks pid with _ | ⟨t0, ts0⟩
    · rw [process_playlist, htr] at hexc
      simp at hexc
    · have hh := process_playlist_history P pid owner wipe obs db timestamp
        t0 ts0 htr
      obtain ⟨_, hret⟩ := process_playlist_unfold P pid owner wipe obs db
        timestamp t0 ts0 htr
      rw [hret] at hexc
      rcases hloop : (runLoop P owner wipe (t0 :: ts0).length obs 0 (t0 :: ts0)
          (report (RunState.init db) 0 (t0 :: ts0).length "Fetching tracks..."
            none)) with ⟨st2, r⟩
      rw [hloop] at hexc hh
      rcases r with _ | e
      · simp only at hexc
        cases hexc
      · simp only at hexc hh
        cases hexc
        exact hh

/-- Witness for C10 amended: a fresh insert into an empty history, and a
completed write merging onto a previous error record — the stale error
value survives. -/
theorem history_upserted_at_job_end_witness :
    ((⟨[], [], []⟩ : SongsDB).history.filter
        (fun x => x.playlistId == "PL" && x.owner == "u") = [])
  ∧ (historyUpsert (⟨[], [], []⟩ : SongsDB).history "PL" "u"
        ⟨"t0", 3, "completed", none⟩).filter
        (fun x => x.playlistId == "PL" && x.owner == "u") =
      [⟨"PL", "u", "t0", 3, "completed", none⟩]
  ∧ ((⟨[], [], [⟨"PL", "u", "t0", 0, "error", some "boom"⟩]⟩ :
        SongsDB).history.filter
        (fun x => x.playlistId == "PL" && x.owner == "u") =
      [⟨"PL", "u", "t0", 0, "error", some "boom"⟩])
  ∧ (⟨"PL", "u", "t0", 0, "error", some "boom"⟩ : HistoryRec).error =
      some "boom"
  ∧ (historyUpsert (⟨[], [], [⟨"PL", "u", "t0", 0, "error", some "boom"⟩]⟩ :
        SongsDB).history "PL" "u" ⟨"t1", 3, "completed", none⟩).filter
        (fun x => x.playlistId == "PL" && x.owner == "u") =
      [⟨"PL", "u", "t1", 3, "completed", some "boom"⟩] := by
  have hfresh := history_upserted_at_job_end (⟨[], [], []⟩ : SongsDB)
    "PL" "u" ⟨"t0", 3, "completed", none⟩
    (⟨fun _ => [], fun _ => .error "u", fun _ _ => none, fun _ => .error "u",
      fun _ => .error "u", fun _ _ _ => .error "u"⟩ : Ports)
    false (fun _ => false) "t"
  have hstale := history_upserted_at_job_end
    (⟨[], [], [⟨"PL", "u", "t0", 0, "error", some "boom"⟩]⟩ : SongsDB)
    "PL" "u" ⟨"t1", 3, "completed", none⟩
    (⟨fun _ => [], fun _ => .error "u", fun _ _ => none, fun _ => .error "u",
      fun _ => .error "u", fun _ _ _ => .error "u"⟩ : Ports)
    false (fun _ => false) "t"
  exact ⟨by decide, hfresh.1 (by decide), by decide, rfl,
    hstale.2.2.2.1 ⟨"PL", "u", "t0", 0, "error", some "boom"⟩ "boom"
      (by decide) rfl rfl rfl⟩

/-! ### C6: cooperative cancellation -/

theorem onProgress_jobErrors (jobId owner now : String) :
    ∀ (reports : List Progress) (w : WorkerState),
    (reports.foldl (_on_progress jobId owner now) w).jobErrors =
      reports.foldl errTickStep w.jobErrors := by
  intro reports
  induction reports with
  | nil => intro w; rfl
  | cons p rest ih =>
    intro w
    simp only [List.foldl_cons]
    rw [ih]
    congr 1

/-- A cancelled run finalizes with status CANCELLED and exactly the error
entries recorded by the progress callbacks. -/
theorem run_enrichment_job_cancelled (P : Ports) (jobId pid owner : String)
    (wipe : Bool) (obs : Nat → Bool) (maps0 : LiveMaps) (jobsDb0 : JobsTable)
    (usageTbl0 : UsageTable) (songsDb : SongsDB) (now timestamp : String)
    (hc : (process_playlist P pid owner wipe obs songsDb timestamp).2 =
      .error .cancelled) :
    (run_enrichment_job P jobId pid owner wipe obs maps0 jobsDb0 usageTbl0
      songsDb now timestamp).2.2.1 = .cancelled
  ∧ (run_enrichment_job P jobId pid owner wipe obs maps0 jobsDb0 usageTbl0
      songsDb now timestamp).1.jobErrors = reportErrorEntries
      (process_playlist P pid owner wipe obs songsDb timestamp).1.reports := by
  constructor
  · simp only [run_enrichment_job, hc]
  · simp only [run_enrichment_job, hc]
    rw [onProgress_jobErrors]
    rfl

/--
C6.  Cooperative cancellation: the runner checks the signal before each
track — a set signal at the check aborts the loop with the distinguished
cancellation and nothing further processed; once the signal is set by
check index `c + 2`, at most `c + 2` tracks are ever processed (at most
one beyond the track in flight at cancel time, index `c`); and a cancelled
run finalizes with terminal status CANCELLED — never ERROR — preserving
exactly the error entries already recorded.
-/
theorem cooperative_cancellation (P : Ports) (jobId pid owner : String)
    (wipe : Bool) (obs : Nat → Bool) (maps0 : LiveMaps) (jobsDb0 : JobsTable)
    (usageTbl0 : UsageTable) (songsDb : SongsDB) (now timestamp : String)
    (total c : Nat)
    (hm : ∀ k, obs k = true → obs (k + 1) = true)
    (hset : obs (c + 2) = true) :
    (∀ (i : Nat) (t : Track) (rest : List Track) (st : RunState),
       obs i = true →
       runLoop P owner wipe total obs i (t :: rest) st = (st, some .cancelled))
  ∧ (∀ (ts : List Track) (st : RunState),
       (runLoop P owner wipe total obs 0 ts st).1.processedTracks ≤
         st.processedTracks + (c + 2))
  ∧ ((process_playlist P pid owner wipe obs songsDb timestamp).2 =
        .error .cancelled →
       (run_enrichment_job P jobId pid owner wipe obs maps0 jobsDb0 usageTbl0
          songsDb now timestamp).2.2.1 = .cancelled
     ∧ (run_enrichment_job P jobId pid owner wipe obs maps0 jobsDb0 usageTbl0
          songsDb now timestamp).2.2.1 ≠ .error
     ∧ (run_enrichment_job P jobId pid owner wipe obs maps0 jobsDb0 usageTbl0
          songsDb now timestamp).1.jobErrors = reportErrorEntries
          (process_playlist P pid owner wipe obs songsDb timestamp).1.reports
     ∧ (∃ lj, get_live_state (run_enrichment_job P jobId pid owner wipe obs
          maps0 jobsDb0 usageTbl0 songsDb now timestamp).1.maps jobId =
            some lj
        ∧ lj.status = .cancelled
        ∧ lj.errors = reportErrorEntries
            (process_playlist P pid owner wipe obs songsDb timestamp).1.reports)) := by
  refine ⟨?_, ?_, ?_⟩
  · intro i t rest st h
    simp [runLoop, h]
  · intro ts st
    have h := runLoop_processed_bound P owner wipe total obs hm (c + 2) hset
      ts 0 st
    omega
  · intro hc
    obtain ⟨h1, h2⟩ := run_enrichment_job_cancelled P jobId pid owner wipe obs
      maps0 jobsDb0 usageTbl0 songsDb now timestamp hc
    refine ⟨h1, ?_, h2, ?_⟩
    · rw [h1]; decide
    · refine ⟨_, getAssoc_setAssoc_self _ _ _, ?_, ?_⟩
      · rw [(mergeFinalLive_fields _ _ _ _ _ _).1]
        simpa using h1
      · rw [(mergeFinalLive_fields _ _ _ _ _ _).2.1]
        simpa using h2

/-- Witness for C6 on a concrete signal set from check index 2 onwards. -/
theorem cooperative_cancellation_witness :
    (∀ k, (fun k => decide (2 ≤ k)) k = true → (fun k => decide (2 ≤ k)) (k + 1) = true)
  ∧ (fun k => decide (2 ≤ k)) (0 + 2) = true
  ∧ ((∀ (i : Nat) (t : Track) (rest : List Track) (st : RunState),
       (fun k => decide (2 ≤ k)) i = true →
       runLoop (⟨fun _ => [⟨some "v1", some "Song A", [], none, []⟩],
      fun _ => .error "u", fun _ _ => none, fun _ => .error "u",
      fun _ => .error "u", fun _ _ _ => .error "u"⟩ : Ports) "u" false 1 (fun k => decide (2 ≤ k)) i (t :: rest) st =
         (st, some .cancelled))
  ∧ (∀ (ts : List Track) (st : RunState),
       (runLoop (⟨fun _ => [⟨some "v1", some "Song A", [], none, []⟩],
      fun _ => .error "u", fun _ _ => none, fun _ => .error "u",
      fun _ => .error "u", fun _ _ _ => .error "u"⟩ : Ports) "u" false 1 (fun k => decide (2 ≤ k)) 0 ts st).1.processedTracks ≤
         st.processedTracks + (0 + 2))
  ∧ ((process_playlist (⟨fun _ => [⟨some "v1", some "Song A", [], none, []⟩],
      fun _ => .error "u", fun _ _ => none, fun _ => .error "u",
      fun _ => .error "u", fun _ _ _ => .error "u"⟩ : Ports) "PL" "u" false (fun k => decide (2 ≤ k)) ⟨[], [], []⟩ "ts").2 =
        .error .cancelled →
       (run_enrichment_job (⟨fun _ => [⟨some "v1", some "Song A", [], none, []⟩],
      fun _ => .error "u", fun _ _ => none, fun _ => .error "u",
      fun _ => .error "u", fun _ _ _ => .error "u"⟩ : Ports) "j1" "PL" "u" false (fun k => decide (2 ≤ k)) ⟨[], [], []⟩ [] []
          ⟨[], [], []⟩ "n" "ts").2.2.1 = .cancelled
     ∧ (run_enrichment_job (⟨fun _ => [⟨some "v1", some "Song A", [], none, []⟩],
      fun _ => .error "u", fun _ _ => none, fun _ => .error "u",
      fun _ => .error "u", fun _ _ _ => .error "u"⟩ : Ports) "j1" "PL" "u" false (fun k => decide (2 ≤ k)) ⟨[], [], []⟩ [] []
          ⟨[], [], []⟩ "n" "ts").2.2.1 ≠ .error
     ∧ (run_enrichment_job (⟨fun _ => [⟨some "v1", some "Song A", [], none, []⟩],
      fun _ => .error "u", fun _ _ => none, fun _ => .error "u",
      fun _ => .error "u", fun _ _ _ => .error "u"⟩ : Ports) "j1" "PL" "u" false (fun k => decide (2 ≤ k)) ⟨[], [], []⟩ [] []
          ⟨[], [], []⟩ "n" "ts").1.jobErrors = reportErrorEntries
          (process_playlist (⟨fun _ => [⟨some "v1", some "Song A", [], none, []⟩],
      fun _ => .error "u", fun _ _ => none, fun _ => .error "u",
      fun _ => .error "u", fun _ _ _ => .error "u"⟩ : Ports) "PL" "u" false (fun k => decide (2 ≤ k)) ⟨[], [], []⟩
            "ts").1.reports
     ∧ (∃ lj, get_live_state (run_enrichment_job (⟨fun _ => [⟨some "v1", some "Song A", [], none, []⟩],
      fun _ => .error "u", fun _ _ => none, fun _ => .error "u",
      fun _ => .error "u", fun _ _ _ => .error "u"⟩ : Ports) "j1" "PL" "u" false
          (fun k => decide (2 ≤ k)) ⟨[], [], []⟩ [] [] ⟨[], [], []⟩ "n" "ts").1.maps "j1" =
            some lj
        ∧ lj.status = .cancelled
        ∧ lj.errors = reportErrorEntries
            (process_playlist (⟨fun _ => [⟨some "v1", some "Song A", [], none, []⟩],
      fun _ => .error "u", fun _ _ => none, fun _ => .error "u",
      fun _ => .error "u", fun _ _ _ => .error "u"⟩ : Ports) "PL" "u" false (fun k => decide (2 ≤ k)) ⟨[], [], []⟩
              "ts").1.reports))) := by
  have hm : ∀ k, (fun k => decide (2 ≤ k)) k = true → (fun k => decide (2 ≤ k)) (k + 1) = true := by
    intro k h
    simp only [decide_eq_true_eq] at h ⊢
    omega
  have hset : (fun k => decide (2 ≤ k)) (0 + 2) = true := by decide
  exact ⟨hm, hset, cooperative_cancellation (⟨fun _ => [⟨some "v1", some "Song A", [], none, []⟩],
      fun _ => .error "u", fun _ _ => none, fun _ => .error "u",
      fun _ => .error "u", fun _ _ _ => .error "u"⟩ : Ports) "j1" "PL" "u" false
    (fun k => decide (2 ≤ k)) ⟨[], [], []⟩ [] [] ⟨[], [], []⟩ "n" "ts" 1 0 hm hset⟩

/-! ### C3: per-track failure isolation -/

theorem fetchAlbumYear_error (P : Ports) (st : RunState) (a : Option String)
    (e : String) (h : fetchAlbumYear P st a = .error e) :
    ∃ b, P.get_album b = .error e := by
  unfold fetchAlbumYear at h
  split at h
  · cases h
  · split at h
    · cases h
    · split at h
      · rename_i heq
        cases h
        exact ⟨_, heq⟩
      · cases h

theorem yearStepOf_error (P : Ports) (si : SongInfo) (track1 : Track)
    (st : RunState) (e : String) (h : yearStepOf P si track1 st = .error e) :
    ∃ b, P.get_album b = .error e := by
  unfold yearStepOf at h
  split at h
  · cases h
  · exact fetchAlbumYear_error _ _ _ _ h

theorem processTrackFetched_exc (P : Ports) (owner : String) (total i : Nat)
    (t : Track) (vid : String) (si : SongInfo) (st : RunState) (msg : String)
    (h : (processTrackFetched P owner total i t vid si st).2 = some msg) :
    ∃ b, P.get_album b = .error msg := by
  rcases hy : yearStepOf P si (track1Of t si) st with e | p
  · simp only [processTrackFetched, hy] at h
    cases h
    exact yearStepOf_error _ _ _ _ _ hy
  · obtain ⟨ay, st2⟩ := p
    simp only [processTrackFetched, hy] at h
    split at h <;> simp at h

/-- An exception escapes the per-track body only from the metadata
fetches (`get_song` / `get_album`) — never from download or enrich. -/
theorem processTrack_exc (P : Ports) (owner : String) (wipe : Bool)
    (total i : Nat) (t : Track) (st : RunState) (msg : String)
    (h : (processTrack P owner wipe total i t st).2 = some msg) :
    (∃ v, P.get_song v = .error msg) ∨ (∃ b, P.get_album b = .error msg) := by
  rcases hv : truthyVid t.videoId with _ | vid
  · simp only [processTrack, hv] at h
    cases h
  · rcases hd : (if ¬wipe then get_track_by_id
        (report { st with processedTracks := st.processedTracks + 1 } i total
          ("Processing: " ++ t.title.getD "Unknown" ++ " - " ++
            artistsJoin t.artists) none).db vid else none) with _ | ex
    · rcases hg : P.get_song vid with e | si
      · simp only [processTrack, hv, hd, hg] at h
        cases h
        exact Or.inl ⟨vid, hg⟩
      · simp only [processTrack, hv, hd, hg] at h
        exact Or.inr (processTrackFetched_exc _ _ _ _ _ _ _ _ _ h)
    · simp only [processTrack, hv, hd] at h
      cases h

/-- The error record built for an absorbed failure: catalog key kept,
status ERROR, the exception message as the error message. -/
theorem _build_track_data_error_status (vid title : String) (track1 : Track)
    (owner : String) (md : Metadata) (albumYear playCount : Option String)
    (pvid : Option String) (hm : truthyStr md.error = true) :
    (_build_track_data vid title track1 owner md true albumYear playCount
      pvid).status = "error"
  ∧ (_build_track_data vid title track1 owner md true albumYear playCount
      pvid).errorMessage = md.error
  ∧ (_build_track_data vid title track1 owner md true albumYear playCount
      pvid).videoId = vid
  ∧ (_build_track_data vid title track1 owner md true albumYear playCount
      pvid).success = false := by
  refine ⟨?_, rfl, rfl, ?_⟩ <;> simp [_build_track_data, hm]

/--
Counterexample to C3 as stated: an exception raised by the song-metadata
fetch (`get_song`) for the first track of a two-track playlist is *not*
isolated — no ERROR TrackRecord is saved for that track, the second track
is never processed, the run aborts re-raising the exception, and the job
converts to terminal ERROR.
-/
theorem per_track_isolation_counterexample :
    (process_playlist
      ⟨fun _ => [⟨some "v1", some "Song A", [], none, []⟩,
                 ⟨some "v2", some "Song B", [], none, []⟩],
       fun _ => .error "boom", fun _ _ => none, fun _ => .error "u",
       fun _ => .error "u", fun _ _ _ => .error "u"⟩
      "PL" "u" false (fun _ => false) ⟨[], [], []⟩ "t").2 = .error (.exc "boom")
  ∧ (process_playlist
      ⟨fun _ => [⟨some "v1", some "Song A", [], none, []⟩,
                 ⟨some "v2", some "Song B", [], none, []⟩],
       fun _ => .error "boom", fun _ _ => none, fun _ => .error "u",
       fun _ => .error "u", fun _ _ _ => .error "u"⟩
      "PL" "u" false (fun _ => false) ⟨[], [], []⟩ "t").1.db.songs = []
  ∧ (process_playlist
      ⟨fun _ => [⟨some "v1", some "Song A", [], none, []⟩,
                 ⟨some "v2", some "Song B", [], none, []⟩],
       fun _ => .error "boom", fun _ _ => none, fun _ => .error "u",
       fun _ => .error "u", fun _ _ _ => .error "u"⟩
      "PL" "u" false (fun _ => false) ⟨[], [], []⟩ "t").1.processedTracks = 1
  ∧ (run_enrichment_job
      ⟨fun _ => [⟨some "v1", some "Song A", [], none, []⟩,
                 ⟨some "v2", some "Song B", [], none, []⟩],
       fun _ => .error "boom", fun _ _ => none, fun _ => .error "u",
       fun _ => .error "u", fun _ _ _ => .error "u"⟩
      "j1" "PL" "u" false (fun _ => false) ⟨[], [], []⟩ [] [] ⟨[], [], []⟩
      "n" "t").2.2.1 = .error := by
  exact ⟨rfl, rfl, rfl, rfl⟩

/--
C3 amended.  Failure isolation holds for the download/enrich phase — the
part of the per-track body covered by the source's `try` block: any
exception from the downloader or the enricher, and any error the enricher
reports as data, yields a saved TrackRecord with status ERROR carrying the
message, a progress report carrying that record (from which the worker
appends the job-level error entry), and the loop continues.  An exception
can escape the per-track body only from the metadata fetches (`get_song` /
`get_album`), which sit outside the `try`; such an exception aborts the
loop and the job finalizes ERROR.
-/
theorem per_track_failure_isolation (P : Ports) (owner : String)
    (wipe : Bool) (obs : Nat → Bool) (total i : Nat) (t : Track)
    (rest : List Track) (vid title : String) (track1 : Track)
    (artistsDisplay : String) (albumYear playCount : Option String)
    (st : RunState) :
    (∀ msg, (processTrack P owner wipe total i t st).2 = some msg →
      (∃ v, P.get_song v = .error msg) ∨ (∃ b, P.get_album b = .error msg))
  ∧ (∀ e, e ≠ "" → P.download vid = .error e →
      (enrichPhase P owner total i vid title track1 artistsDisplay albumYear
        playCount st).results = st.results ++
        [_build_track_data vid title track1 owner (emptyMetadata (some e))
          true albumYear playCount none]
    ∧ (enrichPhase P owner total i vid title track1 artistsDisplay albumYear
        playCount st).db = save_track st.db
        (_build_track_data vid title track1 owner (emptyMetadata (some e))
          true albumYear playCount none)
    ∧ (_build_track_data vid title track1 owner (emptyMetadata (some e))
        true albumYear playCount none).status = "error"
    ∧ (_build_track_data vid title track1 owner (emptyMetadata (some e))
        true albumYear playCount none).errorMessage = some e
    ∧ (∃ p, (enrichPhase P owner total i vid title track1 artistsDisplay
          albumYear playCount st).reports = st.reports ++ [p]
        ∧ p.trackData = some (_build_track_data vid title track1 owner
            (emptyMetadata (some e)) true albumYear playCount none)
        ∧ p.current = i))
  ∧ (∀ fn e, e ≠ "" → P.download vid = .ok fn →
      P.enrich fn title artistsDisplay = .error e →
      (enrichPhase P owner total i vid title track1 artistsDisplay albumYear
        playCount st).results = st.results ++
        [_build_track_data vid title track1 owner (emptyMetadata (some e))
          true albumYear playCount none]
    ∧ (_build_track_data vid title track1 owner (emptyMetadata (some e))
        true albumYear playCount none).status = "error"
    ∧ (∃ p, (enrichPhase P owner total i vid title track1 artistsDisplay
          albumYear playCount st).reports = st.reports ++ [p]
        ∧ p.trackData = some (_build_track_data vid title track1 owner
            (emptyMetadata (some e)) true albumYear playCount none)
        ∧ p.current = i))
  ∧ (∀ fn md, P.download vid = .ok fn →
      P.enrich fn title artistsDisplay = .ok md →
      truthyStr md.error = true →
      (enrichPhase P owner total i vid title track1 artistsDisplay albumYear
        playCount st).results = st.results ++
        [_build_track_data vid title track1 owner { md with usageMeta := none }
          true albumYear playCount none]
    ∧ (_build_track_data vid title track1 owner { md with usageMeta := none }
        true albumYear playCount none).status = "error"
    ∧ (_build_track_data vid title track1 owner { md with usageMeta := none }
        true albumYear playCount none).errorMessage = md.error)
  ∧ (obs i = false → (processTrack P owner wipe total i t st).2 = none →
      runLoop P owner wipe total obs i (t :: rest) st =
        runLoop P owner wipe total obs (i + 1) rest
          (processTrack P owner wipe total i t st).1) := by
  refine ⟨?_, ?_, ?_, ?_, ?_⟩
  · intro msg h
    exact processTrack_exc P owner wipe total i t st msg h
  · intro e he hdl
    have ht : truthyStr (emptyMetadata (some e)).error = true := by
      simp [emptyMetadata, truthyStr, he]
    obtain ⟨hs, hem, _, _⟩ := _build_track_data_error_status vid title track1
      owner (emptyMetadata (some e)) albumYear playCount none ht
    refine ⟨?_, ?_, hs, hem, ?_⟩ <;> simp only [enrichPhase, hdl]
    · rfl
    · rfl
    · exact ⟨_, rfl, rfl, rfl⟩
  · intro fn e he hdl hen
    have ht : truthyStr (emptyMetadata (some e)).error = true := by
      simp [emptyMetadata, truthyStr, he]
    obtain ⟨hs, _, _, _⟩ := _build_track_data_error_status vid title track1
      owner (emptyMetadata (some e)) albumYear playCount none ht
    refine ⟨?_, hs, ?_⟩ <;> simp only [enrichPhase, hdl, hen]
    · rfl
    · exact ⟨_, rfl, rfl, rfl⟩
  · intro fn md hdl hen ht
    obtain ⟨hs, hem, _, _⟩ := _build_track_data_error_status vid title track1
      owner { md with usageMeta := none } albumYear playCount none
      (by simpa using ht)
    refine ⟨?_, hs, hem⟩
    simp only [enrichPhase, hdl, hen, ht, if_true]
    rfl
  · intro ho hnone
    rcases hp : processTrack P owner wipe total i t st with ⟨st', r⟩
    rw [hp] at hnone
    simp only at hnone
    subst hnone
    simp only [runLoop, ho, Bool.false_eq_true, if_false, hp]

/-- Concrete instance of the amended isolation theorem: a downloader
exception "boom" yields a saved ERROR record carrying the message. -/
theorem per_track_failure_isolation_witness :
    ("boom" ≠ "")
  ∧ (_build_track_data "v" "T" ⟨some "v", some "T", [], none, []⟩ "u"
      (emptyMetadata (some "boom")) true none none none).status = "error"
  ∧ (_build_track_data "v" "T" ⟨some "v", some "T", [], none, []⟩ "u"
      (emptyMetadata (some "boom")) true none none none).errorMessage =
        some "boom" := by
  have h := per_track_failure_isolation
    ⟨fun _ => [], fun _ => .error "x", fun _ _ => none, fun _ => .error "x",
     fun _ => .error "boom", fun _ _ _ => .error "x"⟩
    "u" false (fun _ => false) 1 0 ⟨some "v", some "T", [], none, []⟩ []
    "v" "T" ⟨some "v", some "T", [], none, []⟩ "A" none none
    (RunState.init ⟨[], [], []⟩)
  obtain ⟨-, h2, -, -, -⟩ := h
  obtain ⟨-, -, hs, hem, -⟩ := h2 "boom" (by decide) rfl
  exact ⟨by decide, hs, hem⟩

/-! ### C7: deduplication idempotence -/

theorem truthyVid_some (o : Option String) (v : String)
    (h : truthyVid o = some v) : v ≠ "" := by
  unfold truthyVid at h
  split at h
  · split at h
    · cases h
    · rename_i hne
      cases h
      simpa using hne
  · cases h

theorem get_track_by_id_mem (db : SongsDB) (vid : String) (ex : TrackData)
    (h : get_track_by_id db vid = some ex) :
    ex ∈ db.songs ∧ ex.videoId = vid := by
  unfold get_track_by_id at h
  rcases hf : db.songs.filter (fun s => s.videoId == vid) with _ | ⟨a, tl⟩
  · rw [hf] at h
    cases h
  · rw [hf] at h
    cases h
    have ha : ex ∈ db.songs.filter (fun s => s.videoId == vid) := by
      rw [hf]
      exact List.mem_cons_self _ _
    rw [List.mem_filter] at ha
    exact ⟨ha.1, by simpa using ha.2⟩

theorem get_track_by_id_congr (db1 db2 : SongsDB) (vid : String)
    (h : db1.songs = db2.songs) :
    get_track_by_id db1 vid = get_track_by_id db2 vid := by
  unfold get_track_by_id
  rw [h]

theorem map_eq_self_of_fix {α : Type} (f : α → α) :
    ∀ l : List α, (∀ x ∈ l, f x = x) → l.map f = l
  | [], _ => rfl
  | x :: xs, h => by
    simp only [List.map_cons, h x (List.mem_cons_self _ _),
      map_eq_self_of_fix f xs (fun y hy => h y (List.mem_cons_of_mem _ hy))]

theorem trackdata_set_pvid_self (ex : TrackData) :
    { ex with playableVideoId := ex.playableVideoId } = ex := by
  cases ex
  rfl

theorem trackdata_merge_self (s : TrackData) :
    { s with playableVideoId := match s.playableVideoId with
      | some p => some p
      | none => s.playableVideoId } = s := by
  cases s
  rename_i pv o
  cases pv <;> rfl

/-- Re-saving an already-catalogued record with only the owner set leaves
the songs table unchanged, the link table gains the (owner, vid) link if
absent, and the history table is untouched. -/
theorem save_track_relink (db : SongsDB) (ex : TrackData) (owner vid : String)
    (hvne : vid ≠ "") (hexvid : ex.videoId = vid) (hexo : ex.owner = none)
    (hin : ex ∈ db.songs)
    (huniq : ∀ s ∈ db.songs, s.videoId = vid → s = ex) :
    (save_track db { ex with owner := some owner }).songs = db.songs
  ∧ (owner, vid) ∈ (save_track db { ex with owner := some owner }).userSongs
  ∧ ((save_track db { ex with owner := some owner }).userSongs = db.userSongs
     ∨ (save_track db { ex with owner := some owner }).userSongs =
        db.userSongs ++ [(owner, vid)])
  ∧ (save_track db { ex with owner := some owner }).history = db.history := by
  have hdata : ({ { ex with owner := some owner } with owner := none } :
      TrackData) = ex := by
    cases ex
    simp_all
  have hvid : ({ ex with owner := some owner } : TrackData).videoId = vid := by
    cases ex
    simpa using hexvid
  have htv : truthyVid (some ({ ex with owner := some owner } :
      TrackData).videoId) = some vid := by
    rw [hvid]
    simp [truthyVid, hvne]
  have howner : ({ ex with owner := some owner } :
      TrackData).owner.getD "local" = owner := by
    cases ex
    rfl
  have hany : db.songs.any (fun s => s.videoId == vid) = true := by
    rw [List.any_eq_true]
    exact ⟨ex, hin, by simp [hexvid]⟩
  have hmerge : upsertSong db.songs ex vid = db.songs := by
    simp only [upsertSong, hany, if_true]
    refine map_eq_self_of_fix _ _ ?_
    intro s hs
    rcases hc : s.videoId == vid with _ | _
    · simp [hc]
    · have hse : s = ex := huniq s hs (by simpa using hc)
      simp only [hc, if_true]
      rw [hse]
      exact trackdata_merge_self ex
  simp only [save_track, htv, hdata, howner, hmerge]
  refine ⟨by trivial, ?_, ?_, by trivial⟩
  · rcases hl : db.userSongs.any (fun l => l.1 == owner && l.2 == vid)
        with _ | _
    · simp only [hl, Bool.false_eq_true, if_false]
      exact List.mem_append_right _ (List.mem_singleton.mpr rfl)
    · simp only [hl, if_true]
      rw [List.any_eq_true] at hl
      obtain ⟨l, hlm, hlp⟩ := hl
      simp only [Bool.and_eq_true, beq_iff_eq] at hlp
      have hlv : l = (owner, vid) := by
        rcases l with ⟨a, b⟩
        simp only at hlp
        rw [hlp.1, hlp.2]
      rw [← hlv]
      exact hlm
  · rcases hl : db.userSongs.any (fun l => l.1 == owner && l.2 == vid)
        with _ | _
    · exact Or.inr (by simp only [hl, Bool.false_eq_true, if_false])
    · exact Or.inl (by simp only [hl, if_true])

/-- One already-catalogued track under dedup: no fetch, no enrich, no
download; songs table unchanged; only the ownership link may be added. -/
theorem processTrack_dedup (P : Ports) (owner : String) (total i : Nat)
    (t : Track) (vid : String) (ex : TrackData) (st0 : RunState)
    (hv : truthyVid t.videoId = some vid)
    (hex : get_track_by_id st0.db vid = some ex)
    (hexo : ex.owner = none)
    (huniq : ∀ s ∈ st0.db.songs, s.videoId = vid → s = ex) :
    (processTrack P owner false total i t st0).2 = none
  ∧ (processTrack P owner false total i t st0).1.getSongCalls =
      st0.getSongCalls
  ∧ (processTrack P owner false total i t st0).1.enrichCalls = st0.enrichCalls
  ∧ (processTrack P owner false total i t st0).1.downloadCalls =
      st0.downloadCalls
  ∧ (processTrack P owner false total i t st0).1.db.songs = st0.db.songs
  ∧ (owner, vid) ∈ (processTrack P owner false total i t st0).1.db.userSongs
  ∧ ((processTrack P owner false total i t st0).1.db.userSongs =
       st0.db.userSongs
     ∨ (processTrack P owner false total i t st0).1.db.userSongs =
       st0.db.userSongs ++ [(owner, vid)])
  ∧ (processTrack P owner false total i t st0).1.db.history =
      st0.db.history := by
  have hvne : vid ≠ "" := truthyVid_some _ _ hv
  obtain ⟨hin, hexvid⟩ := get_track_by_id_mem _ _ _ hex
  have hd : (if ¬false then get_track_by_id
      (report { st0 with processedTracks := st0.processedTracks + 1 } i total
        ("Processing: " ++ t.title.getD "Unknown" ++ " - " ++
          artistsJoin t.artists) none).db vid else none) = some ex := by
    simpa [report] using hex
  obtain ⟨hsongs, hmem, hdisj, hhist⟩ :=
    save_track_relink st0.db ex owner vid hvne hexvid hexo hin huniq
  simp only [processTrack, hv, hd]
  refine ⟨by trivial, by trivial, by trivial, by trivial, ?_, ?_, ?_, ?_⟩
  · simpa [report] using hsongs
  · simpa [report] using hmem
  · simpa [report] using hdisj
  · simpa [report] using hhist

/-- Run-level dedup idempotence: over a fully catalogued track list the
loop issues zero get_song / enrich / download calls and leaves the songs
and history tables unchanged. -/
theorem runLoop_dedup (P : Ports) (owner : String) (total : Nat)
    (tracks : List Track) :
    ∀ (i : Nat) (st : RunState), allCatalogued tracks st →
    (runLoop P owner false total (fun _ => false) i tracks st).2 = none
  ∧ (runLoop P owner false total (fun _ => false) i tracks st).1.getSongCalls
      = st.getSongCalls
  ∧ (runLoop P owner false total (fun _ => false) i tracks st).1.enrichCalls
      = st.enrichCalls
  ∧ (runLoop P owner false total (fun _ => false) i tracks st).1.downloadCalls
      = st.downloadCalls
  ∧ (runLoop P owner false total (fun _ => false) i tracks st).1.db.songs
      = st.db.songs
  ∧ (runLoop P owner false total (fun _ => false) i tracks st).1.db.history
      = st.db.history := by
  induction tracks with
  | nil =>
    intro i st _
    simp [runLoop]
  | cons u rest ih =>
    intro i st h
    rcases hv : truthyVid u.videoId with _ | w
    · rcases hp : processTrack P owner false total i u st with ⟨st', r⟩
      have hpt : processTrack P owner false total i u st =
          ({ st with processedTracks := st.processedTracks + 1 }, none) := by
        simp only [processTrack, hv]
      rw [hpt] at hp
      obtain ⟨hst', hr⟩ : st' = { st with
          processedTracks := st.processedTracks + 1 } ∧ r = none := by
        cases hp
        exact ⟨rfl, rfl⟩
      have hrec := ih (i + 1) st' (by
        subst hst'
        intro u' hu' w' hw'
        exact h u' (List.mem_cons_of_mem _ hu') w' hw')
      subst hr
      simp only [runLoop, Bool.false_eq_true, if_false, hpt]
      subst hst'
      exact hrec
    · obtain ⟨e, hexe, heo, hu⟩ := h u (List.mem_cons_self _ _) w hv
      obtain ⟨h2, hg, hen, hdl, hsng, _, _, hhist⟩ :=
        processTrack_dedup P owner total i u w e st hv hexe heo hu
      rcases hp : processTrack P owner false total i u st with ⟨st', r⟩
      rw [hp] at h2 hg hen hdl hsng hhist
      simp only at h2 hg hen hdl hsng hhist
      subst h2
      have hrec := ih (i + 1) st' (by
        intro u' hu' w' hw'
        obtain ⟨e', he', heo', hu'2⟩ :=
          h u' (List.mem_cons_of_mem _ hu') w' hw'
        refine ⟨e', ?_, heo', ?_⟩
        · rw [get_track_by_id_congr st'.db st.db w' hsng]
          exact he'
        · intro s hsmem hsvid
          exact hu'2 s (hsng ▸ hsmem) hsvid
      )
      simp only [runLoop, Bool.false_eq_true, if_false, hp]
      refine ⟨hrec.1, ?_, ?_, ?_, ?_, ?_⟩
      · rw [hrec.2.1, hg]
      · rw [hrec.2.2.1, hen]
      · rw [hrec.2.2.2.1, hdl]
      · rw [hrec.2.2.2.2.1, hsng]
      · rw [hrec.2.2.2.2.2, hhist]

/--
C7: deduplication idempotence.  With the full-rescan flag unset, a track
whose id is already catalogued triggers no song-metadata fetch, no
download, and no enrichment call; the songs table is unchanged and the
record is only re-linked to the requesting owner, the (owner, id) link
being created exactly when absent.  Consequently a whole run over an
already-catalogued track list issues zero get_song / enrich / download
calls and leaves the songs and history tables unchanged.
-/
theorem dedup_idempotence (P : Ports) (owner : String) (total i : Nat)
    (t : Track) (vid : String) (ex : TrackData) (st0 : RunState)
    (tracks : List Track) (j : Nat) (st1 : RunState)
    (hv : truthyVid t.videoId = some vid)
    (hex : get_track_by_id st0.db vid = some ex)
    (hexo : ex.owner = none)
    (huniq : ∀ s ∈ st0.db.songs, s.videoId = vid → s = ex)
    (hcat : allCatalogued tracks st1) :
    ((processTrack P owner false total i t st0).2 = none
  ∧ (processTrack P owner false total i t st0).1.getSongCalls =
      st0.getSongCalls
  ∧ (processTrack P owner false total i t st0).1.enrichCalls = st0.enrichCalls
  ∧ (processTrack P owner false total i t st0).1.downloadCalls =
      st0.downloadCalls
  ∧ (processTrack P owner false total i t st0).1.db.songs = st0.db.songs
  ∧ (owner, vid) ∈ (processTrack P owner false total i t st0).1.db.userSongs
  ∧ ((processTrack P owner false total i t st0).1.db.userSongs =
       st0.db.userSongs
     ∨ (processTrack P owner false total i t st0).1.db.userSongs =
       st0.db.userSongs ++ [(owner, vid)]))
  ∧ ((runLoop P owner false total (fun _ => false) j tracks st1).2 = none
  ∧ (runLoop P owner false total (fun _ => false) j tracks st1).1.getSongCalls
      = st1.getSongCalls
  ∧ (runLoop P owner false total (fun _ => false) j tracks st1).1.enrichCalls
      = st1.enrichCalls
  ∧ (runLoop P owner false total
      (fun _ => false) j tracks st1).1.downloadCalls = st1.downloadCalls
  ∧ (runLoop P owner false total (fun _ => false) j tracks st1).1.db.songs
      = st1.db.songs) := by
  obtain ⟨h1, h2, h3, h4, h5, h6, h7, _⟩ :=
    processTrack_dedup P owner total i t vid ex st0 hv hex hexo huniq
  obtain ⟨g1, g2, g3, g4, g5, _⟩ := runLoop_dedup P owner total tracks j st1 hcat
  exact ⟨⟨h1, h2, h3, h4, h5, h6, h7⟩, g1, g2, g3, g4, g5⟩

/-- Concrete instance of dedup idempotence: a one-track playlist whose id
is already catalogued re-links the owner and makes zero enrichment
calls. -/
theorem dedup_idempotence_witness :
    truthyVid (some "v1") = some "v1"
  ∧ get_track_by_id (⟨[⟨"v1", "T", [], none, none, none, [], [], [], [],
      none, true, "completed", true, none, "u", none, none⟩], [], []⟩ :
      SongsDB) "v1" = some ⟨"v1", "T", [], none, none, none, [], [], [], [],
      none, true, "completed", true, none, "u", none, none⟩
  ∧ (runLoop ⟨fun _ => [], fun _ => .error "x", fun _ _ => none,
      fun _ => .error "x", fun _ => .error "x", fun _ _ _ => .error "x"⟩
      "o" false 1 (fun _ => false) 0 [⟨some "v1", some "T", [], none, []⟩]
      (RunState.init ⟨[⟨"v1", "T", [], none, none, none, [], [], [], [],
        none, true, "completed", true, none, "u", none, none⟩], [],
        []⟩)).1.enrichCalls = 0
  ∧ ("o", "v1") ∈ (processTrack ⟨fun _ => [], fun _ => .error "x",
      fun _ _ => none, fun _ => .error "x", fun _ => .error "x",
      fun _ _ _ => .error "x"⟩ "o" false 1 0
      ⟨some "v1", some "T", [], none, []⟩
      (RunState.init ⟨[⟨"v1", "T", [], none, none, none, [], [], [], [],
        none, true, "completed", true, none, "u", none,
        none⟩], [], []⟩)).1.db.userSongs := by
  have h := dedup_idempotence
    ⟨fun _ => [], fun _ => .error "x", fun _ _ => none, fun _ => .error "x",
     fun _ => .error "x", fun _ _ _ => .error "x"⟩
    "o" 1 0 ⟨some "v1", some "T", [], none, []⟩ "v1"
    ⟨"v1", "T", [], none, none, none, [], [], [], [], none, true,
      "completed", true, none, "u", none, none⟩
    (RunState.init ⟨[⟨"v1", "T", [], none, none, none, [], [], [], [], none,
      true, "completed", true, none, "u", none, none⟩], [], []⟩)
    [⟨some "v1", some "T", [], none, []⟩] 0
    (RunState.init ⟨[⟨"v1", "T", [], none, none, none, [], [], [], [], none,
      true, "completed", true, none, "u", none, none⟩], [], []⟩)
    (by decide) (by decide) rfl (by decide)
    (by
      intro u hu w hw
      have hu' : u = (⟨some "v1", some "T", [], none, []⟩ : Track) := by
        simpa using hu
      subst hu'
      have hw2 : truthyVid (some "v1") = some w := hw
      have hww : ("v1" : String) = w := by
        have hv1 : truthyVid (some "v1") = some "v1" := by decide
        rw [hv1] at hw2
        exact Option.some.inj hw2
      subst hww
      exact ⟨⟨"v1", "T", [], none, none, none, [], [], [], [], none, true,
        "completed", true, none, "u", none, none⟩, by decide, rfl, by decide⟩)
  exact ⟨by decide, by decide, h.2.2.2.1, h.1.2.2.2.2.2.1⟩

/-! ### C4: retry self-healing resolution -/

theorem retryEnrichPhase_ok (P : Ports) (owner : String) (total i : Nat)
    (vid title : String) (track : Track) (ad : String) (im : Bool)
    (ay pc : Option String) (dl : String) (pv : Option String)
    (st : RunState) (fn : String) (md : Metadata)
    (hdl : P.download dl = .ok fn) (hen : P.enrich fn title ad = .ok md) :
    (retryEnrichPhase P owner total i vid title track ad im ay pc dl pv
      st).results = st.results ++
      [_build_track_data vid title track owner { md with usageMeta := none }
        im ay pc pv] := by
  simp [retryEnrichPhase, hdl, hen, report]

theorem _build_track_data_key (vid title : String) (track : Track)
    (owner : String) (md : Metadata) (im : Bool) (ay pc : Option String)
    (pv : Option String) :
    (_build_track_data vid title track owner md im ay pc pv).videoId = vid
  ∧ (_build_track_data vid title track owner md im ay pc pv).playableVideoId
      = pv
  ∧ (_build_track_data vid title track owner md im ay pc pv).errorMessage
      = md.error :=
  ⟨rfl, rfl, rfl⟩

/--
Counterexample to C4 as stated.  An unplayable track with stored artist
"A" whose fresh fetch reports artist "B": (i) with no alternative the
record's reason is the literal "UNPLAYABLE and no alternative found", not
the claim's "unplayable and no alternative found"; (ii) the alternate
search is keyed by the stored title but the *freshly fetched* artist
display ("B"), not the stored artist ("A"); (iii) when the track is
classified non-music the no-alternative record is saved with status
"non-music", not ERROR.
-/
theorem retry_resolution_counterexample :
    (retry_failed_tracks
      ⟨fun _ => [], fun _ => .ok ⟨some "T", true, false, [⟨"B", none⟩], none,
        some "1999", none, []⟩, fun _ _ => none, fun _ => .error "u",
        fun _ => .error "u", fun _ _ _ => .error "u"⟩
      "o" (fun _ => false) none
      ⟨[⟨"v1", "T", [⟨"A", none⟩], none, none, none, [], [], [], [], none,
        true, "error", false, some "old", "u", none, none⟩],
       [("o", "v1")], []⟩).1.results.map (fun r => r.errorMessage) =
      [some "UNPLAYABLE and no alternative found"]
  ∧ "UNPLAYABLE and no alternative found" ≠ "unplayable and no alternative found"
  ∧ "Video replaced and no alternative found" ≠ "replaced and no alternative found"
  ∧ (retry_failed_tracks
      ⟨fun _ => [], fun _ => .ok ⟨some "T", true, false, [⟨"B", none⟩], none,
        some "1999", none, []⟩, fun _ _ => none, fun _ => .error "u",
        fun _ => .error "u", fun _ _ _ => .error "u"⟩
      "o" (fun _ => false) none
      ⟨[⟨"v1", "T", [⟨"A", none⟩], none, none, none, [], [], [], [], none,
        true, "error", false, some "old", "u", none, none⟩],
       [("o", "v1")], []⟩).1.searchCalls = [("T", "B")]
  ∧ artistsJoin [⟨"A", none⟩] = "A"
  ∧ ("B" : String) ≠ "A"
  ∧ (retry_failed_tracks
      ⟨fun _ => [], fun _ => .ok ⟨some "T", false, false, [⟨"B", none⟩], none,
        some "1999", none, []⟩, fun _ _ => none, fun _ => .error "u",
        fun _ => .error "u", fun _ _ _ => .error "u"⟩
      "o" (fun _ => false) none
      ⟨[⟨"v1", "T", [⟨"A", none⟩], none, none, none, [], [], [], [], none,
        true, "error", false, some "old", "u", none, none⟩],
       [("o", "v1")], []⟩).1.results.map (fun r => r.status) = ["non-music"]
  ∧ "non-music" ≠ "error" := by
  exact ⟨by decide, by decide, by decide, by decide, by decide, by decide,
    by decide, by decide⟩

/--
C4 amended.  For an ERROR-status candidate the retry engine re-fetches the
song metadata and classifies it: *replaced* when the fetched title is
non-empty and differs (trimmed, case-insensitive) from the stored title,
*unplayable* when the title matches but the song is not playable.  In both
classes it searches for an alternative keyed by the stored title together
with the artist display — the stored artists when replaced, but the
freshly fetched artists (falling back to stored) when unplayable.  On a
hit, the enrichment proceeds with the hit as download/enrich input while
the saved record keeps the original id as catalog key and stores the hit
as the playable alternate id.  On no hit, a record is saved whose error
message is the literal reason "UNPLAYABLE and no alternative found" or
"Video replaced and no alternative found" (status ERROR only when the
track is classified music), and the loop continues.
-/
theorem retry_selfheal_resolution (P : Ports) (owner : String)
    (total i : Nat) (failed : TrackData) (st0 : RunState) (si : SongInfo)
    (obs : Nat → Bool)
    (hg : P.get_song failed.videoId = .ok si) :
    -- unplayable, no alternative: ERROR record with the literal reason
    ((pyLower (pyStrip (si.title.getD "")) == pyLower (pyStrip failed.title)) = true →
      si.playable = false → truthyStr si.year = true →
      P.search_playable_alternative failed.title
        (artistsJoin (orList si.artists failed.artists)) = none →
      (retryTrack P owner total i failed st0).2 = none
    ∧ (retryTrack P owner total i failed st0).1.searchCalls =
        st0.searchCalls ++
          [(failed.title, artistsJoin (orList si.artists failed.artists))]
    ∧ ∃ r, (retryTrack P owner total i failed st0).1.results =
          st0.results ++ [r]
        ∧ (retryTrack P owner total i failed st0).1.db = save_track st0.db r
        ∧ r.videoId = failed.videoId
        ∧ r.errorMessage = some "UNPLAYABLE and no alternative found"
        ∧ (si.isMusic = true → r.status = "error"))
    -- unplayable, alternative found: enrich via the alternate, original id
    -- as catalog key, alternate stored as playable alternate id
  ∧ ((pyLower (pyStrip (si.title.getD "")) == pyLower (pyStrip failed.title)) = true →
      si.playable = false → truthyStr si.year = true →
      ∀ altVid altInfo,
      P.search_playable_alternative failed.title
        (artistsJoin (orList si.artists failed.artists)) = some altVid →
      P.get_song altVid = .ok altInfo →
      ∃ track2 ad2 ay2 pc2 st2,
        retryTrack P owner total i failed st0 =
          (retryEnrichPhase P owner total i failed.videoId failed.title
            track2 ad2 si.isMusic ay2 pc2 altVid (some altVid) st2, none))
    -- the record built by the enrichment phase keeps the catalog key and
    -- the playable alternate id
  ∧ (∀ (vid title : String) (track : Track) (ad : String) (im : Bool)
        (ay pc : Option String) (dl : String) (pv : Option String)
        (st : RunState) (fn : String) (md : Metadata),
      P.download dl = .ok fn → P.enrich fn title ad = .ok md →
      (retryEnrichPhase P owner total i vid title track ad im ay pc dl pv
        st).results = st.results ++
        [_build_track_data vid title track owner
          { md with usageMeta := none } im ay pc pv]
    ∧ (_build_track_data vid title track owner { md with usageMeta := none }
        im ay pc pv).videoId = vid
    ∧ (_build_track_data vid title track owner { md with usageMeta := none }
        im ay pc pv).playableVideoId = pv)
    -- replaced, no alternative: search keyed by the stored artists, ERROR
    -- record with the literal replaced reason
  ∧ (∀ ftitle, si.title = some ftitle →
      (pyLower (pyStrip ftitle) == pyLower (pyStrip failed.title)) = false →
      (ftitle != "") = true →
      failed.album = none →
      P.search_playable_alternative failed.title
        (artistsJoin failed.artists) = none →
      (retryTrack P owner total i failed st0).2 = none
    ∧ (retryTrack P owner total i failed st0).1.searchCalls =
        st0.searchCalls ++ [(failed.title, artistsJoin failed.artists)]
    ∧ ∃ r, (retryTrack P owner total i failed st0).1.results =
          st0.results ++ [r]
        ∧ r.videoId = failed.videoId
        ∧ r.errorMessage = some "Video replaced and no alternative found")
    -- the loop always continues past a locally handled candidate
  ∧ (∀ (j : Nat) (t : TrackData) (rest : List TrackData) (st' : RunState),
      obs j = false → (retryTrack P owner total j t st').2 = none →
      retryLoop P owner total obs j (t :: rest) st' =
        retryLoop P owner total obs (j + 1) rest
          (retryTrack P owner total j t st').1) := by
  refine ⟨?_, ?_, ?_, ?_, ?_⟩
  · intro hnm hpl hyr hsr
    refine ⟨?_, ?_, ⟨_build_track_data failed.videoId failed.title
      ⟨some failed.videoId, some failed.title,
        orList si.artists failed.artists,
        if si.album.isSome then si.album else failed.album,
        orList si.thumbnails failed.thumbnails⟩
      owner (emptyMetadata (some "UNPLAYABLE and no alternative found"))
      si.isMusic si.year (orStr si.playCount failed.playCount) none,
      ?_, ?_, rfl, rfl, ?_⟩⟩
    · simp [retryTrack, hg, hnm, hpl, hyr, hsr]
    · simp [retryTrack, hg, hnm, hpl, hyr, hsr, report]
    · simp [retryTrack, hg, hnm, hpl, hyr, hsr, report]
    · simp [retryTrack, hg, hnm, hpl, hyr, hsr, report]
    · intro him
      simp [_build_track_data, emptyMetadata, truthyStr, him]
  · intro hnm hpl hyr altVid altInfo hsr halt
    simp only [retryTrack, hg, hnm, hpl, hyr, hsr, halt, Bool.not_true,
      Bool.false_and, Bool.false_eq_true, if_false, if_true, ite_true,
      ite_false, Bool.false_eq_true]
    simp [hpl]
    exact ⟨_, _, _, _, _, rfl⟩
  · intro vid title track ad im ay pc dl pv st fn md hdl hen
    exact ⟨retryEnrichPhase_ok P owner total i vid title track ad im ay pc
        dl pv st fn md hdl hen,
      (_build_track_data_key vid title track owner _ im ay pc pv).1,
      (_build_track_data_key vid title track owner _ im ay pc pv).2.1⟩
  · intro ftitle hft hnm2 hne halb hsr
    refine ⟨?_, ?_, ⟨_build_track_data failed.videoId failed.title
      ⟨some failed.videoId, some failed.title, failed.artists, none,
        failed.thumbnails⟩
      owner (emptyMetadata (some "Video replaced and no alternative found"))
      si.isMusic none failed.playCount none, ?_, rfl, rfl⟩⟩
    · simp [retryTrack, hg, hft, hnm2, hne, halb, hsr, fetchAlbumYear,
        truthyVid, albumBrowseIdOf, truthyStr]
    · simp [retryTrack, hg, hft, hnm2, hne, halb, hsr, fetchAlbumYear,
        truthyVid, albumBrowseIdOf, truthyStr, report]
    · simp [retryTrack, hg, hft, hnm2, hne, halb, hsr, fetchAlbumYear,
        truthyVid, albumBrowseIdOf, truthyStr, report]
  · intro j t rest st' ho hnone
    rcases hp : retryTrack P owner total j t st' with ⟨st2, r⟩
    rw [hp] at hnone
    simp only at hnone
    subst hnone
    simp only [retryLoop, ho, Bool.false_eq_true, if_false, hp]

/-- Concrete instance of the amended retry-resolution theorem: an
unplayable candidate with no alternative is handled locally and the
search is keyed by the stored title and the fetched artist display. -/
theorem retry_selfheal_resolution_witness :
    (Ports.get_song
      ⟨fun _ => [], fun _ => .ok ⟨some "T", true, false, [⟨"B", none⟩], none,
        some "1999", none, []⟩, fun _ _ => none, fun _ => .error "u",
        fun _ => .error "u", fun _ _ _ => .error "u"⟩ "v1" =
      .ok ⟨some "T", true, false, [⟨"B", none⟩], none, some "1999", none, []⟩)
  ∧ (retryTrack
      ⟨fun _ => [], fun _ => .ok ⟨some "T", true, false, [⟨"B", none⟩], none,
        some "1999", none, []⟩, fun _ _ => none, fun _ => .error "u",
        fun _ => .error "u", fun _ _ _ => .error "u"⟩
      "o" 1 0 ⟨"v1", "T", [⟨"A", none⟩], none, none, none, [], [], [], [],
        none, true, "error", false, some "old", "u", none, none⟩
      (RunState.init ⟨[], [], []⟩)).2 = none
  ∧ (retryTrack
      ⟨fun _ => [], fun _ => .ok ⟨some "T", true, false, [⟨"B", none⟩], none,
        some "1999", none, []⟩, fun _ _ => none, fun _ => .error "u",
        fun _ => .error "u", fun _ _ _ => .error "u"⟩
      "o" 1 0 ⟨"v1", "T", [⟨"A", none⟩], none, none, none, [], [], [], [],
        none, true, "error", false, some "old", "u", none, none⟩
      (RunState.init ⟨[], [], []⟩)).1.searchCalls = [("T", "B")] := by
  have h := retry_selfheal_resolution
    ⟨fun _ => [], fun _ => .ok ⟨some "T", true, false, [⟨"B", none⟩], none,
      some "1999", none, []⟩, fun _ _ => none, fun _ => .error "u",
      fun _ => .error "u", fun _ _ _ => .error "u"⟩
    "o" 1 0 ⟨"v1", "T", [⟨"A", none⟩], none, none, none, [], [], [], [],
      none, true, "error", false, some "old", "u", none, none⟩
    (RunState.init ⟨[], [], []⟩)
    ⟨some "T", true, false, [⟨"B", none⟩], none, some "1999", none, []⟩
    (fun _ => false) rfl
  obtain ⟨h1, -, -, -, -⟩ := h
  obtain ⟨ha, hb, -⟩ := h1 (by decide) rfl (by decide) rfl
  exact ⟨rfl, ha, hb⟩

end SongShake
